import Mathlib

/-! Hierarchical virtual memory (`VirtualMemory.cpp`).

A shallow embedding of the address translator of `VirtualMemory.cpp`:
the page-table walk of `getPhysicalAddress`, the tree scan `DFS`, the
frame choice (empty table, unused frame, victim) and the two public
calls `VMread` and `VMwrite`.

* `word_t` values are `Int`, `uint64_t` values are `Nat`; the conversions
  between them are `toU64` and `toWord`, and the `uint64_t` subtractions of
  `calc_cyclic` wrap (`u64sub`).  A physical address `frame * PAGE_SIZE + slot`
  formed from a `uint64_t` frame is not reduced again modulo `2^64`: it is
  below `2^64` whenever the frame index is below `NUM_FRAMES`, and lies
  outside the device otherwise.
* The physical memory device and the backing store are not part of the
  sources; they are modelled in `PM` from their contract.
* The geometry constants of `MemoryConstants.h` are the fields of
  `Geometry`.
* `pageArray` is a function from index to value; `initializePageArray`
  writes the indices `0 .. TABLES_DEPTH`.
-/

namespace VirtualMemory

/-! ## Geometry -/

/-- The compile-time constants the translator consumes: `OFFSET_WIDTH` (W),
`TABLES_DEPTH` (D) and `NUM_FRAMES` (F).  The header that defines them is
not among the sources, so they are parameters of every definition. -/
structure Geometry where
  OFFSET_WIDTH : Nat
  TABLES_DEPTH : Nat
  NUM_FRAMES : Nat
deriving DecidableEq, Repr

/-- Modelled from the spec: `PAGE_SIZE` is `P = 2^W` (the defining header is absent). -/
def Geometry.PAGE_SIZE (g : Geometry) : Nat := 2 ^ g.OFFSET_WIDTH

/-- Modelled from the spec: `VIRTUAL_MEMORY_SIZE` is `V = 2^((D+1)·W)` (the defining header is absent). -/
def Geometry.VIRTUAL_MEMORY_SIZE (g : Geometry) : Nat :=
  2 ^ ((g.TABLES_DEPTH + 1) * g.OFFSET_WIDTH)

/-- Modelled from the spec: `NUM_PAGES` is `N = 2^(D·W)` (the defining header is absent). -/
def Geometry.NUM_PAGES (g : Geometry) : Nat := 2 ^ (g.TABLES_DEPTH * g.OFFSET_WIDTH)

/-! ## Machine integers -/

/-- Conversion of a signed value to `uint64_t`: reduction modulo `2^64`. -/
def toU64 (z : Int) : Nat := (z % 2 ^ 64).toNat

/-- Modelled from the spec: `word_t` is the machine word; its typedef is in the absent
header and is taken to be the 32-bit two's-complement `int`.  This is the conversion
of an integer value to `word_t`. -/
def toWord (z : Int) : Int :=
  if z % 2 ^ 32 < 2 ^ 31 then z % 2 ^ 32 else z % 2 ^ 32 - 2 ^ 32

/-- Subtraction of two `uint64_t` values (wraps modulo `2^64`). -/
def u64sub (a b : Nat) : Nat := (a % 2 ^ 64 + 2 ^ 64 - b % 2 ^ 64) % 2 ^ 64

/-! ## Physical memory and backing store -/

/-- Modelled from the spec: the physical memory device (`PhysicalMemory.h`, absent from
the sources).  `ram` is the array of words addressed as `frame · P + offset`; `swap` is
the backing store, one page image per page number, all zero for a page that was never
evicted. -/
structure PM where
  ram : Nat → Int
  swap : Nat → Nat → Int

/-- Modelled from the spec: `PMread(addr, out)` yields the word at physical address `addr`. -/
def PMread (pm : PM) (addr : Nat) : Int := pm.ram addr

/-- Modelled from the spec: `PMwrite(addr, word)` stores `word` at physical address `addr`. -/
def PMwrite (pm : PM) (addr : Nat) (w : Int) : PM :=
  { pm with ram := fun a => if a = addr then w else pm.ram a }

/-- Modelled from the spec: `PMevict(frame, page)` copies the contents of `frame` into the
backing store entry for `page`. -/
def PMevict (g : Geometry) (pm : PM) (frame page : Nat) : PM :=
  { pm with swap := fun q => if q = page then (fun o => pm.ram (frame * g.PAGE_SIZE + o))
                              else pm.swap q }

/-- Modelled from the spec: `PMrestore(frame, page)` copies the backing store entry for
`page` into `frame` (zeroes if the page was never written). -/
def PMrestore (g : Geometry) (pm : PM) (frame page : Nat) : PM :=
  { pm with ram := fun a =>
      if frame * g.PAGE_SIZE ≤ a ∧ a < frame * g.PAGE_SIZE + g.PAGE_SIZE
      then pm.swap page (a - frame * g.PAGE_SIZE) else pm.ram a }

/-- The backing store in which no page was ever evicted. -/
def emptySwap : Nat → Nat → Int := fun _ _ => 0

/-! ## Helpers of the translator -/

/-- `clearTable(frameIndex)`: writes 0 to the `PAGE_SIZE` words of the frame, in
ascending order. -/
def clearTable (g : Geometry) (pm : PM) (frameIndex : Nat) : PM :=
  (List.range g.PAGE_SIZE).foldl (fun s i => PMwrite s (frameIndex * g.PAGE_SIZE + i) 0) pm

/-- `VMinitialize()`: clears frame 0. -/
def VMinitialize (g : Geometry) (pm : PM) : PM := clearTable g pm 0

/-- `calc_cyclic(p1, p2)` on `uint64_t` values. -/
def calc_cyclic (g : Geometry) (p1 p2 : Nat) : Nat :=
  let dis := if p2 < p1 then u64sub p1 p2 else u64sub p2 p1
  if dis ≥ u64sub g.NUM_PAGES dis then u64sub g.NUM_PAGES dis else dis

/-- `calcOffset(virtualAddress)`. -/
def calcOffset (g : Geometry) (virtualAddress : Nat) : Nat :=
  virtualAddress - ((virtualAddress >>> g.OFFSET_WIDTH) <<< g.OFFSET_WIDTH)

/-- The variables `DFS` receives by reference and updates: the findings of one scan. -/
structure Scan where
  frameToEvict : Int
  pageToEvict : Int
  addressToEvict : Nat
  emptyFrame : Int
  emptyAdd : Int
  oldCycDist : Nat
  maxFrame : Nat
deriving DecidableEq, Repr

/-- `saveFrameToEvict`: records the leaf when its cyclic distance from `p` is strictly
larger than the largest seen so far. -/
def saveFrameToEvict (g : Geometry) (p curPage : Nat) (sc : Scan)
    (curFrame prevFrame : Int) (offset : Nat) : Scan :=
  let newCycDist := calc_cyclic g p curPage
  if newCycDist > sc.oldCycDist then
    { sc with oldCycDist := newCycDist
              frameToEvict := curFrame
              pageToEvict := toWord curPage
              addressToEvict := toU64 (prevFrame * g.PAGE_SIZE + offset) }
  else sc

/-- `saveEmptyFrame`: records the empty table and the address of the slot pointing to it. -/
def saveEmptyFrame (g : Geometry) (sc : Scan) (frame prevFrame : Int) (offset : Nat) : Scan :=
  { sc with emptyFrame := frame
            emptyAdd := toWord (prevFrame * g.PAGE_SIZE + offset) }

/-- `DFS`.  The first explicit argument `rem` is `TABLES_DEPTH - curDepth`, so
`curDepth == TABLES_DEPTH` is `rem = 0` and the recursive call at `curDepth + 1` is the
call at `rem - 1`.  The loop over the `PAGE_SIZE` slots carries the scan and `isEmpty`. -/
def DFS (g : Geometry) (ram : Nat → Int) (used : Int → Bool) (p : Nat) :
    Nat → Int → Int → Nat → Nat → Scan → Scan
  | 0, curFrame, prevFrame, curPage, offset, sc =>
    let sc := if toU64 curFrame > sc.maxFrame then { sc with maxFrame := toU64 curFrame } else sc
    if !used curFrame then saveFrameToEvict g p curPage sc curFrame prevFrame offset else sc
  | rem + 1, curFrame, prevFrame, curPage, offset, sc =>
    let sc := if toU64 curFrame > sc.maxFrame then { sc with maxFrame := toU64 curFrame } else sc
    let r := (List.range g.PAGE_SIZE).foldl
      (fun (acc : Scan × Bool) page =>
        let nextFrame := ram (toU64 curFrame * g.PAGE_SIZE + page)
        if nextFrame ≠ 0 then
          (DFS g ram used p rem nextFrame curFrame ((curPage <<< g.OFFSET_WIDTH) + page) page acc.1,
            false)
        else acc)
      (sc, true)
    if r.2 && !used curFrame then saveEmptyFrame g r.1 curFrame prevFrame offset else r.1

/-- The loop of `initializePageArray`, for `depth` running from its first argument down
to 0; the array is a function from index to value. -/
def initializePageArrayLoop (g : Geometry) : Nat → Nat → (Nat → Nat) → (Nat → Nat)
  | 0, virtualAddress, pageArray => fun i => if i = 0 then virtualAddress else pageArray i
  | depth + 1, virtualAddress, pageArray =>
    initializePageArrayLoop g depth (virtualAddress >>> g.OFFSET_WIDTH)
      (fun i => if i = depth + 1 then virtualAddress &&& (g.PAGE_SIZE - 1) else pageArray i)

/-- `initializePageArray(pageArray, virtualAddress)`: entries `0..TABLES_DEPTH`. -/
def initializePageArray (g : Geometry) (virtualAddress : Nat) : Nat → Nat :=
  initializePageArrayLoop g g.TABLES_DEPTH virtualAddress (fun _ => 0)

/-- The local variables of `getPhysicalAddress` that live across iterations of its loop,
together with the memory. -/
structure Walk where
  pm : PM
  prevFrame : Int
  curFrame : Int
  maxFrame : Nat
  used : Int → Bool

/-- The scan record `getPhysicalAddress` builds before calling `DFS`. -/
def initScan (maxFrame : Nat) : Scan :=
  { frameToEvict := 0, pageToEvict := 0, addressToEvict := 0, emptyFrame := 0, emptyAdd := 0,
    oldCycDist := 0, maxFrame := maxFrame }

/-- The frame choice made at a missing link from the scan result: the chosen frame and the
memory after the unlinking (and eviction) the choice performs. -/
def chooseFrame (g : Geometry) (pm : PM) (sc : Scan) : Int × PM :=
  if sc.emptyFrame ≠ 0 then
    (sc.emptyFrame, PMwrite pm (toU64 sc.emptyAdd) 0)
  else if sc.maxFrame + 1 < g.NUM_FRAMES then
    (toWord (sc.maxFrame + 1 : Nat), pm)
  else
    (sc.frameToEvict,
      PMwrite (PMevict g pm (toU64 sc.frameToEvict) (toU64 sc.pageToEvict)) sc.addressToEvict 0)

/-- One iteration of the loop of `getPhysicalAddress`, at level `curTable`. -/
def walkStep (g : Geometry) (p : Nat) (pageArray : Nat → Nat) (w : Walk) (curTable : Nat) : Walk :=
  let physicalAddress := toU64 (w.prevFrame * g.PAGE_SIZE + pageArray curTable)
  let curFrame := PMread w.pm physicalAddress
  if curFrame = 0 then
    let sc := DFS g w.pm.ram w.used p g.TABLES_DEPTH curFrame 0 0 0 (initScan w.maxFrame)
    let c := chooseFrame g w.pm sc
    let pm := PMwrite c.2 physicalAddress c.1
    let used : Int → Bool := fun f => if f = c.1 then true else w.used f
    let pm := if curTable ≠ g.TABLES_DEPTH - 1 then clearTable g pm (toU64 c.1)
              else PMrestore g pm (toU64 c.1) p
    { pm := pm, prevFrame := c.1, curFrame := c.1, maxFrame := sc.maxFrame, used := used }
  else
    { w with prevFrame := curFrame, curFrame := curFrame }

/-- The state of `getPhysicalAddress` before its loop: `used` holds `true` for frame 0 only. -/
def initWalk (pm : PM) : Walk :=
  { pm := pm, prevFrame := 0, curFrame := 0, maxFrame := 0, used := fun f => decide (f = 0) }

/-- The state of `getPhysicalAddress` after its loop. -/
def walk (g : Geometry) (pm : PM) (virtualAddress : Nat) : Walk :=
  (List.range g.TABLES_DEPTH).foldl
    (walkStep g (virtualAddress >>> g.OFFSET_WIDTH) (initializePageArray g virtualAddress))
    (initWalk pm)

/-- `getPhysicalAddress(virtualAddress)`: the returned address and the memory it leaves. -/
def getPhysicalAddress (g : Geometry) (pm : PM) (virtualAddress : Nat) : Nat × PM :=
  let w := walk g pm virtualAddress
  (toU64 (w.curFrame * g.PAGE_SIZE + calcOffset g virtualAddress), w.pm)

/-- `checkFailure(virtualAddress)`. -/
def checkFailure (g : Geometry) (virtualAddress : Nat) : Bool :=
  decide (virtualAddress ≥ g.VIRTUAL_MEMORY_SIZE)

/-- What a public call leaves behind: the returned `int`, the word held by `*value`
(for `VMwrite`: the word passed in), and the memory. -/
structure Outcome where
  ret : Int
  value : Int
  pm : PM

/-- `VMread(virtualAddress, value)`; `value` is the word `*value` holds before the call. -/
def VMread (g : Geometry) (pm : PM) (virtualAddress : Nat) (value : Int) : Outcome :=
  if checkFailure g virtualAddress then { ret := 0, value := value, pm := pm }
  else
    let r := getPhysicalAddress g pm virtualAddress
    { ret := 1, value := PMread r.2 r.1, pm := r.2 }

/-- `VMwrite(virtualAddress, value)`. -/
def VMwrite (g : Geometry) (pm : PM) (virtualAddress : Nat) (value : Int) : Outcome :=
  if checkFailure g virtualAddress then { ret := 0, value := value, pm := pm }
  else
    let r := getPhysicalAddress g pm virtualAddress
    { ret := 1, value := value, pm := PMwrite r.2 r.1 value }

/-! ## Sequences of public calls -/

/-- A public call. -/
inductive Op where
  | read (v : Nat)
  | write (v : Nat) (x : Int)
deriving DecidableEq, Repr

/-- The virtual address of a call. -/
def Op.addr : Op → Nat
  | .read v => v
  | .write v _ => v

/-- The memory after a call. -/
def Op.exec (g : Geometry) (pm : PM) : Op → PM
  | .read v => (VMread g pm v 0).pm
  | .write v x => (VMwrite g pm v x).pm

/-- The memory after a sequence of calls, first call first. -/
def run (g : Geometry) (pm : PM) (ops : List Op) : PM := ops.foldl (Op.exec g) pm

/-- Every call of the sequence has its address below `VIRTUAL_MEMORY_SIZE`. -/
def InRange (g : Geometry) (ops : List Op) : Prop := ∀ o ∈ ops, o.addr < g.VIRTUAL_MEMORY_SIZE

/-- The memory at power-on: every word 0, nothing in the backing store. -/
def zeroPM : PM := { ram := fun _ => 0, swap := emptySwap }

/-- The word a read of `v` yields in memory `pm`. -/
def readValue (g : Geometry) (pm : PM) (v : Nat) : Int := (VMread g pm v 0).value

/-- The words a sequence of reads yields, in order, each read starting from the memory the
previous one left. -/
def readMany (g : Geometry) : PM → List Nat → List Int
  | _, [] => []
  | pm, v :: rest => (VMread g pm v 0).value :: readMany g (VMread g pm v 0).pm rest

/-! ## Observations on a memory, used to state the properties -/

/-- The walk of the tree that only reads: from frame `f`, follow the slots `pageArray i`
for the levels `i` of the list; `none` as soon as an entry read is 0, otherwise the frame
reached. -/
def lookupFrom (g : Geometry) (ram : Nat → Int) (pageArray : Nat → Nat) : List Nat → Int → Option Int
  | [], f => some f
  | i :: rest, f =>
    let e := ram (toU64 (f * g.PAGE_SIZE + pageArray i))
    if e = 0 then none else lookupFrom g ram pageArray rest e

/-- The leaf frame holding the page of `virtualAddress`, when the `TABLES_DEPTH` entries
read from frame 0 along its indices are all non-zero. -/
def lookup (g : Geometry) (ram : Nat → Int) (virtualAddress : Nat) : Option Int :=
  lookupFrom g ram (initializePageArray g virtualAddress) (List.range g.TABLES_DEPTH) 0

/-- The non-zero entries of the slots of the table frames reachable from frame `f` within
`rem` levels, slot by slot in the order `DFS` reads them (an entry, then the entries below it). -/
def tableEntries (g : Geometry) (ram : Nat → Int) : Nat → Int → List Int
  | 0, _ => []
  | rem + 1, f =>
    (List.range g.PAGE_SIZE).flatMap fun i =>
      let e := ram (toU64 f * g.PAGE_SIZE + i)
      if e = 0 then [] else e :: tableEntries g ram rem e

/-- The frames `getPhysicalAddress` chooses at the missing links of one translation, in
level order: at every level whose entry reads 0, the value of `curFrame` after the
empty-table / unused-frame / victim selection. -/
def chosenFrames (g : Geometry) (pm : PM) (virtualAddress : Nat) : List Int :=
  ((List.range g.TABLES_DEPTH).foldl
    (fun (acc : Walk × List Int) curTable =>
      let pageArray := initializePageArray g virtualAddress
      let w := walkStep g (virtualAddress >>> g.OFFSET_WIDTH) pageArray acc.1 curTable
      (w, if PMread acc.1.pm (toU64 (acc.1.prevFrame * g.PAGE_SIZE + pageArray curTable)) = 0
          then acc.2 ++ [w.curFrame] else acc.2))
    (initWalk pm, [])).2

/-- The words of the first `NUM_FRAMES * PAGE_SIZE` physical addresses, in order. -/
def ramImage (g : Geometry) (pm : PM) : List Int :=
  (List.range (g.NUM_FRAMES * g.PAGE_SIZE)).map pm.ram

/-- The geometry `W = 1, D = 2, F = 4` (so `P = 2`, `V = 8`, four pages). -/
def geom124 : Geometry := { OFFSET_WIDTH := 1, TABLES_DEPTH := 2, NUM_FRAMES := 4 }

/-- The geometry `W = 1, D = 3, F = 5` (so `P = 2`, `V = 16`, eight pages). -/
def geom135 : Geometry := { OFFSET_WIDTH := 1, TABLES_DEPTH := 3, NUM_FRAMES := 5 }

/-- The illustrative geometry of the specification: `W = 1, D = 4, F = 5`, `V = 32`. -/
def geom145 : Geometry := { OFFSET_WIDTH := 1, TABLES_DEPTH := 4, NUM_FRAMES := 5 }

/-- The memory after `VMinitialize` on the power-on memory, for geometry `g`. -/
def freshPM (g : Geometry) : PM := VMinitialize g zeroPM

/-! ## Predicates for the translation on a fresh memory -/

/-- The first `k` levels of the path with slot indices `idx` are the chain of frames
`0, 1, .., k`: frame `j` holds `j + 1` in slot `idx j` for every `j < k`, and every other
word of the frames `0..k` is 0. -/
def Chain (g : Geometry) (idx : Nat → Nat) (k : Nat) (ram : Nat → Int) : Prop :=
  (∀ j, j < k → ram (j * g.PAGE_SIZE + idx j) = ((j + 1 : Nat) : Int)) ∧
  (∀ a, a < (k + 1) * g.PAGE_SIZE → (∀ j, j < k → a ≠ j * g.PAGE_SIZE + idx j) → ram a = 0)

/-- The state of the loop of `getPhysicalAddress` after `k` iterations on a fresh memory:
the walker stands on frame `k`, which it has marked used, the scan has seen no frame above
`k`, the memory is the chain of frames `0..k` and the backing store is still empty. -/
def FreshInv (g : Geometry) (idx : Nat → Nat) (k : Nat) (w : Walk) : Prop :=
  w.prevFrame = (k : Int) ∧ w.curFrame = (k : Int) ∧ w.maxFrame ≤ k ∧ w.used (k : Int) = true ∧
  Chain g idx k w.pm.ram ∧ w.pm.swap = emptySwap

/-- A memory whose words are all different from 0 and whose backing store is empty: the
"arbitrary prior contents" a fresh translation must not depend on. -/
def junkPM : PM := { ram := fun a => 7 + a, swap := emptySwap }

/-! ## The parts of one allocation, named to state the allocation policy -/

/-- The scan `getPhysicalAddress` runs at a missing link: `DFS` from frame 0 at depth 0 with
the walker's `used` marks and the `maxFrame` kept from the earlier levels. -/
def scanAt (g : Geometry) (p : Nat) (w : Walk) : Scan :=
  DFS g w.pm.ram w.used p g.TABLES_DEPTH 0 0 0 0 (initScan w.maxFrame)

/-- The walker's state at the start of a translation in the memory reached by `write(0,7)`
at `W = 1, D = 2, F = 4`. -/
def demoWalk : Walk := initWalk (run geom124 (freshPM geom124) [.write 0 7])

/-! ## What the scan goes through, as lists -/

/-- A frame `DFS` reaches at depth `TABLES_DEPTH`: the frame, the page number tracked on the
way down, the frame whose slot points to it and the index of that slot. -/
structure Leaf where
  frame : Int
  page : Nat
  prev : Int
  offset : Nat
deriving DecidableEq, Repr

/-- The frames reached at depth `TABLES_DEPTH` from `curFrame` with `rem` levels to go, in the
order the slots are read (ascending); the page number of a child is
`(curPage << OFFSET_WIDTH) + slot`. -/
def visitedLeaves (g : Geometry) (ram : Nat → Int) : Nat → Int → Int → Nat → Nat → List Leaf
  | 0, curFrame, prevFrame, curPage, offset =>
    [{ frame := curFrame, page := curPage, prev := prevFrame, offset := offset }]
  | rem + 1, curFrame, _, curPage, _ =>
    (List.range g.PAGE_SIZE).flatMap fun page =>
      if ram (toU64 curFrame * g.PAGE_SIZE + page) ≠ 0 then
        visitedLeaves g ram rem (ram (toU64 curFrame * g.PAGE_SIZE + page)) curFrame
          ((curPage <<< g.OFFSET_WIDTH) + page) page
      else []

/-- The victim candidates: the leaves reached that are not marked used. -/
def candidates (g : Geometry) (ram : Nat → Int) (used : Int → Bool) (rem : Nat)
    (curFrame prevFrame : Int) (curPage offset : Nat) : List Leaf :=
  (visitedLeaves g ram rem curFrame prevFrame curPage offset).filter fun l => !used l.frame

/-- The four victim variables of a scan. -/
structure Victim where
  frameToEvict : Int
  pageToEvict : Int
  addressToEvict : Nat
  oldCycDist : Nat
deriving DecidableEq, Repr

/-- The victim variables held by a scan record. -/
def Scan.victim (sc : Scan) : Victim :=
  { frameToEvict := sc.frameToEvict, pageToEvict := sc.pageToEvict,
    addressToEvict := sc.addressToEvict, oldCycDist := sc.oldCycDist }

/-- The victim variables that describe leaf `l` for target page `p`. -/
def Leaf.asVictim (g : Geometry) (p : Nat) (l : Leaf) : Victim :=
  { frameToEvict := l.frame, pageToEvict := toWord l.page,
    addressToEvict := toU64 (l.prev * g.PAGE_SIZE + l.offset),
    oldCycDist := calc_cyclic g p l.page }

/-- One candidate against the best so far: it replaces it when its distance is strictly larger. -/
def pickVictim (g : Geometry) (p : Nat) (v : Victim) (l : Leaf) : Victim :=
  if calc_cyclic g p l.page > v.oldCycDist then l.asVictim g p else v

/-- A table frame whose `PAGE_SIZE` entries are all 0. -/
def isEmptyTable (g : Geometry) (ram : Nat → Int) (frame : Int) : Bool :=
  (List.range g.PAGE_SIZE).all fun page => decide (ram (toU64 frame * g.PAGE_SIZE + page) = 0)

/-- The table frames (depth below `TABLES_DEPTH`) reached from `curFrame`, itself included,
that have all entries 0 and are not marked used, each with the address (as `word_t`) of the
slot pointing to it, in post-order: the tables below a frame come before the frame. -/
def emptyTables (g : Geometry) (ram : Nat → Int) (used : Int → Bool) :
    Nat → Int → Int → Nat → List (Int × Int)
  | 0, _, _, _ => []
  | rem + 1, curFrame, prevFrame, offset =>
    ((List.range g.PAGE_SIZE).flatMap fun page =>
      if ram (toU64 curFrame * g.PAGE_SIZE + page) ≠ 0 then
        emptyTables g ram used rem (ram (toU64 curFrame * g.PAGE_SIZE + page)) curFrame page
      else []) ++
    (if isEmptyTable g ram curFrame && !used curFrame
      then [(curFrame, toWord (prevFrame * g.PAGE_SIZE + offset))] else [])

/-- The empty, unmarked table frames strictly below the root (frame 0), in post-order. -/
def emptyBelowRoot (g : Geometry) (ram : Nat → Int) (used : Int → Bool) : List (Int × Int) :=
  match g.TABLES_DEPTH with
  | 0 => []
  | rem + 1 =>
    (List.range g.PAGE_SIZE).flatMap fun page =>
      if ram (toU64 0 * g.PAGE_SIZE + page) ≠ 0 then
        emptyTables g ram used rem (ram (toU64 0 * g.PAGE_SIZE + page)) 0 page
      else []

/-- The largest `uint64_t` value of a list of entries, starting from `m`. -/
def maxEntry (m : Nat) (entries : List Int) : Nat :=
  entries.foldl (fun m e => max m (toU64 e)) m

/-- The empty-table variables held by a scan record. -/
def Scan.empty (sc : Scan) : Int × Int := (sc.emptyFrame, sc.emptyAdd)

/-- An entry of the list of empty tables is well described: a non-zero frame, not marked
used, with all entries 0, and the recorded address is that of a slot holding the frame. -/
def GoodEmpty (g : Geometry) (ram : Nat → Int) (used : Int → Bool) (e : Int × Int) : Prop :=
  e.1 ≠ 0 ∧ used e.1 = false ∧ isEmptyTable g ram e.1 = true ∧
  ∃ (pf : Int) (slot : Nat), slot < g.PAGE_SIZE ∧ ram (toU64 pf * g.PAGE_SIZE + slot) = e.1 ∧
    e.2 = toWord (pf * g.PAGE_SIZE + slot)

/-! ## Observations on one translation -/

/-- The missing links of one translation, in level order: for every level whose entry reads
0, the frame the walker stands on (`prevFrame`, the parent of the missing slot) and the
frame chosen for the slot. -/
def missingLinks (g : Geometry) (pm : PM) (virtualAddress : Nat) : List (Int × Int) :=
  ((List.range g.TABLES_DEPTH).foldl
    (fun (acc : Walk × List (Int × Int)) curTable =>
      let pageArray := initializePageArray g virtualAddress
      let w := walkStep g (virtualAddress >>> g.OFFSET_WIDTH) pageArray acc.1 curTable
      (w, if PMread acc.1.pm (toU64 (acc.1.prevFrame * g.PAGE_SIZE + pageArray curTable)) = 0
          then acc.2 ++ [(acc.1.prevFrame, w.curFrame)] else acc.2))
    (initWalk pm, [])).2

/-- The physical addresses the walker passes to `PMread` in one translation, in level order
(the `physicalAddress` of every iteration of the loop of `getPhysicalAddress`). -/
def walkReads (g : Geometry) (pm : PM) (virtualAddress : Nat) : List Nat :=
  ((List.range g.TABLES_DEPTH).foldl
    (fun (acc : Walk × List Nat) curTable =>
      let pageArray := initializePageArray g virtualAddress
      (walkStep g (virtualAddress >>> g.OFFSET_WIDTH) pageArray acc.1 curTable,
        acc.2 ++ [toU64 (acc.1.prevFrame * g.PAGE_SIZE + pageArray curTable)]))
    (initWalk pm, [])).2

/-! ## The device's capacity, and geometries with many pages or many frames -/

/-- Modelled from the spec: the physical memory device answers the addresses
`[0, NUM_FRAMES · PAGE_SIZE)` only.  This is `VMread` with that contract applied to the
addresses the loop of `getPhysicalAddress` passes to `PMread`: `none` when one of them is
outside the device (what `DFS` and the writes are given is not examined), otherwise the
outcome of `VMread`. -/
def VMreadOnDevice (g : Geometry) (pm : PM) (virtualAddress : Nat) (value : Int) : Option Outcome :=
  if checkFailure g virtualAddress then some (VMread g pm virtualAddress value)
  else if (walkReads g pm virtualAddress).all fun a => decide (a < g.NUM_FRAMES * g.PAGE_SIZE)
    then some (VMread g pm virtualAddress value)
  else none

/-- The geometry `W = 1, D = 32, F = 33`: `2^32` pages, `V = 2^33`. -/
def geom132 : Geometry := { OFFSET_WIDTH := 1, TABLES_DEPTH := 32, NUM_FRAMES := 33 }

/-- The geometry `W = 1, D = 3` with `2^31` frames: `2^32` physical words. -/
def geomWide : Geometry := { OFFSET_WIDTH := 1, TABLES_DEPTH := 3, NUM_FRAMES := 2147483648 }

/-- A memory for `geomWide` whose tables form a tree: root slot 0 holds frame `2^30`, slot 0
of frame `2^30` (physical address `2^31`) holds frame 5, and every other word, frame 5
included, is 0.  Frame 5 is an empty table at depth 2. -/
def wideTree : PM :=
  { ram := fun a => if a = 0 then 1073741824 else if a = 2147483648 then 5 else 0,
    swap := emptySwap }

/-! ## Machine integers, frames and slots -/

theorem PAGE_SIZE_pos (g : Geometry) : 0 < g.PAGE_SIZE := by
  unfold Geometry.PAGE_SIZE; positivity

theorem toU64_natCast (n : Nat) (h : n < 2 ^ 64) : toU64 (n : Int) = n := by
  unfold toU64
  have h1 : ((n : Int) % 2 ^ 64) = (n : Int) :=
    Int.emod_eq_of_lt (by positivity) (by exact_mod_cast h)
  rw [h1]; simp

theorem toU64_addr (k P i : Nat) (h : k * P + i < 2 ^ 64) :
    toU64 ((k : Int) * (P : Int) + (i : Int)) = k * P + i := by
  have := toU64_natCast (k * P + i) h
  push_cast at this
  exact this

theorem toWord_natCast (n : Nat) (h : n < 2 ^ 31) : toWord (n : Int) = n := by
  unfold toWord
  have h1 : ((n : Int) % 2 ^ 32) = (n : Int) :=
    Int.emod_eq_of_lt (by positivity) (by have : (n : Int) < 2 ^ 31 := by exact_mod_cast h
                                          linarith)
  rw [h1]
  have h2 : (n : Int) < 2 ^ 31 := by exact_mod_cast h
  rw [if_pos h2]

theorem PMwrite_ram (pm : PM) (addr : Nat) (w : Int) (a : Nat) :
    (PMwrite pm addr w).ram a = if a = addr then w else pm.ram a := rfl

theorem PMwrite_swap (pm : PM) (addr : Nat) (w : Int) : (PMwrite pm addr w).swap = pm.swap := rfl

theorem foldl_clear_ram (base : Nat) (a : Nat) :
    ∀ (n : Nat) (pm : PM),
      ((List.range n).foldl (fun s i => PMwrite s (base + i) 0) pm).ram a
        = if base ≤ a ∧ a < base + n then 0 else pm.ram a := by
  intro n
  induction n with
  | zero => intro pm; rw [if_neg (by omega)]; rfl
  | succ n ih =>
    intro pm
    rw [List.range_succ, List.foldl_append]
    simp only [List.foldl_cons, List.foldl_nil]
    rw [PMwrite_ram, ih]
    split_ifs <;> first | rfl | (exfalso; omega)

theorem foldl_clear_swap (base : Nat) :
    ∀ (n : Nat) (pm : PM),
      ((List.range n).foldl (fun s i => PMwrite s (base + i) 0) pm).swap = pm.swap := by
  intro n
  induction n with
  | zero => intro pm; rfl
  | succ n ih =>
    intro pm
    rw [List.range_succ, List.foldl_append]
    simp only [List.foldl_cons, List.foldl_nil]
    rw [PMwrite_swap, ih]

theorem clearTable_ram (g : Geometry) (pm : PM) (f a : Nat) :
    (clearTable g pm f).ram a
      = if f * g.PAGE_SIZE ≤ a ∧ a < f * g.PAGE_SIZE + g.PAGE_SIZE then 0 else pm.ram a :=
  foldl_clear_ram (f * g.PAGE_SIZE) a g.PAGE_SIZE pm

theorem clearTable_swap (g : Geometry) (pm : PM) (f : Nat) :
    (clearTable g pm f).swap = pm.swap :=
  foldl_clear_swap (f * g.PAGE_SIZE) g.PAGE_SIZE pm

theorem calcOffset_eq_mod (g : Geometry) (v : Nat) : calcOffset g v = v % g.PAGE_SIZE := by
  unfold calcOffset Geometry.PAGE_SIZE
  rw [Nat.shiftRight_eq_div_pow, Nat.shiftLeft_eq]
  have := Nat.div_add_mod v (2 ^ g.OFFSET_WIDTH)
  have h2 : v / 2 ^ g.OFFSET_WIDTH * 2 ^ g.OFFSET_WIDTH = 2 ^ g.OFFSET_WIDTH * (v / 2 ^ g.OFFSET_WIDTH) :=
    Nat.mul_comm _ _
  omega

theorem calcOffset_lt (g : Geometry) (v : Nat) : calcOffset g v < g.PAGE_SIZE := by
  rw [calcOffset_eq_mod]; exact Nat.mod_lt _ (PAGE_SIZE_pos g)

theorem pageArrayLoop_above (g : Geometry) :
    ∀ (d v : Nat) (arr : Nat → Nat) (i : Nat), d < i → initializePageArrayLoop g d v arr i = arr i := by
  intro d
  induction d with
  | zero => intro v arr i h; simp [initializePageArrayLoop]; omega
  | succ d ih =>
    intro v arr i h
    rw [initializePageArrayLoop, ih _ _ _ (by omega)]
    simp; omega

theorem pageArrayLoop_lt (g : Geometry) :
    ∀ (d v : Nat) (arr : Nat → Nat) (i : Nat), i ≤ d → v < 2 ^ ((d + 1) * g.OFFSET_WIDTH) →
      initializePageArrayLoop g d v arr i < g.PAGE_SIZE := by
  intro d
  induction d with
  | zero =>
    intro v arr i h hv
    have : i = 0 := by omega
    subst this
    simpa [initializePageArrayLoop, Geometry.PAGE_SIZE] using hv
  | succ d ih =>
    intro v arr i h hv
    rw [initializePageArrayLoop]
    by_cases hi : i = d + 1
    · subst hi
      rw [pageArrayLoop_above g d _ _ (d + 1) (by omega)]
      simp only [if_true]
      unfold Geometry.PAGE_SIZE
      rw [Nat.and_pow_two_sub_one_eq_mod]
      exact Nat.mod_lt _ (by positivity)
    · apply ih _ _ _ (by omega)
      rw [Nat.shiftRight_eq_div_pow]
      apply Nat.div_lt_of_lt_mul
      have : (d + 1 + 1) * g.OFFSET_WIDTH = g.OFFSET_WIDTH + (d + 1) * g.OFFSET_WIDTH := by ring
      rw [this, pow_add] at hv
      exact hv

theorem pageArray_lt (g : Geometry) (v i : Nat) (hv : v < g.VIRTUAL_MEMORY_SIZE)
    (hi : i ≤ g.TABLES_DEPTH) : initializePageArray g v i < g.PAGE_SIZE :=
  pageArrayLoop_lt g g.TABLES_DEPTH v _ i hi hv

theorem foldl_range_none {α : Type} (f : α → Nat → α) :
    ∀ (n : Nat) (a : α), (∀ i, i < n → ∀ b, f b i = b) → (List.range n).foldl f a = a := by
  intro n
  induction n with
  | zero => intro a _; simp
  | succ n ih =>
    intro a h
    rw [List.range_succ, List.foldl_append, ih a (fun i hi b => h i (by omega) b)]
    simp [h n (by omega)]

theorem foldl_range_single {α : Type} (f : α → Nat → α) (i0 : Nat) :
    ∀ (n : Nat) (a : α), i0 < n → (∀ i, i < n → i ≠ i0 → ∀ b, f b i = b) →
      (List.range n).foldl f a = f a i0 := by
  intro n
  induction n with
  | zero => intro a h; omega
  | succ n ih =>
    intro a h0 h
    rw [List.range_succ, List.foldl_append]
    by_cases hn : i0 = n
    · subst hn
      rw [foldl_range_none f i0 a (fun i hi b => h i (by omega) (by omega) b)]
      simp
    · rw [ih a (by omega) (fun i hi hne b => h i (by omega) hne b)]
      simp [h n (by omega) (by omega)]

theorem frame_addr_lt (P j j' a b : Nat) (ha : a < P) (h : j < j') : j * P + a < j' * P + b := by
  have h1 : (j + 1) * P ≤ j' * P := Nat.mul_le_mul_right P h
  rw [Nat.succ_mul] at h1
  omega

/-! ## The scan of a chain -/

theorem bump_eq (sc : Scan) (j : Nat) :
    (if j > sc.maxFrame then { sc with maxFrame := j } else sc)
      = { sc with maxFrame := max sc.maxFrame j } := by
  split_ifs with h1
  · rw [Nat.max_eq_right (Nat.le_of_lt h1)]
  · rw [Nat.max_eq_left (Nat.le_of_not_lt h1)]

theorem bumpMax (sc : Scan) (j k : Nat) (h : j ≤ k) :
    ({ ({ sc with maxFrame := max sc.maxFrame j } : Scan) with
        maxFrame := max ({ sc with maxFrame := max sc.maxFrame j } : Scan).maxFrame k } : Scan)
      = { sc with maxFrame := max sc.maxFrame k } := by
  have : max (max sc.maxFrame j) k = max sc.maxFrame k := by
    rw [max_assoc, Nat.max_eq_right h]
  simp only [this]

theorem DFS_chain (g : Geometry) (ram : Nat → Int) (used : Int → Bool) (p : Nat)
    (idx : Nat → Nat) (k : Nat) (hk : k < g.TABLES_DEPTH) (h64 : (k + 1) * g.PAGE_SIZE ≤ 2 ^ 64)
    (hidx : ∀ j, j < k → idx j < g.PAGE_SIZE)
    (hch : Chain g idx k ram) (hused : used (k : Int) = true) :
    ∀ (n j : Nat), j + n = k → ∀ (rem : Nat) (prev : Int) (curPage off : Nat) (sc : Scan),
      rem + j = g.TABLES_DEPTH →
      DFS g ram used p rem (j : Int) prev curPage off sc = { sc with maxFrame := max sc.maxFrame k } := by
  have hP := PAGE_SIZE_pos g
  have hk64 : ∀ j, j ≤ k → j < 2 ^ 64 := by
    intro j hj
    have : (j + 1) * g.PAGE_SIZE ≤ (k + 1) * g.PAGE_SIZE := Nat.mul_le_mul_right _ (by omega)
    have h2 : j + 1 ≤ (j + 1) * g.PAGE_SIZE := Nat.le_mul_of_pos_right _ hP
    omega
  intro n
  induction n with
  | zero =>
    intro j hj rem prev curPage off sc hrem
    have hjk : j = k := by omega
    subst hjk
    obtain ⟨r, rfl⟩ : ∃ r, rem = r + 1 := ⟨rem - 1, by omega⟩
    rw [DFS]
    simp only [toU64_natCast j (hk64 j le_rfl)]
    rw [bump_eq, foldl_range_none]
    · rw [if_neg (by simp [hused])]
    · intro i hi b
      have hz : ram (j * g.PAGE_SIZE + i) = 0 := by
        apply hch.2
        · rw [Nat.succ_mul]; omega
        · intro j' hj'
          have := frame_addr_lt g.PAGE_SIZE j' j (idx j') i (hidx j' hj') hj'
          omega
      simp [hz]
  | succ n ih =>
    intro j hj rem prev curPage off sc hrem
    have hjk : j < k := by omega
    obtain ⟨r, rfl⟩ : ∃ r, rem = r + 1 := ⟨rem - 1, by omega⟩
    rw [DFS]
    simp only [toU64_natCast j (hk64 j (by omega))]
    rw [bump_eq, foldl_range_single _ (idx j) _ _ (hidx j hjk)]
    · have hl : ram (j * g.PAGE_SIZE + idx j) = ((j + 1 : Nat) : Int) := hch.1 j hjk
      have hne : ram (j * g.PAGE_SIZE + idx j) ≠ 0 := by rw [hl]; exact_mod_cast Nat.succ_ne_zero j
      simp only [hne, ne_eq, not_false_eq_true, if_true, Bool.false_and, Bool.false_eq_true, if_false]
      rw [hl, ih (j + 1) (by omega) r _ _ _ _ (by omega)]
      exact bumpMax sc j k (by omega)
    · intro i hi hne b
      have hz : ram (j * g.PAGE_SIZE + i) = 0 := by
        apply hch.2
        · have := frame_addr_lt g.PAGE_SIZE j (k + 1) i 0 hi (by omega)
          omega
        · intro j' hj' heq
          rcases Nat.lt_trichotomy j j' with h | h | h
          · have := frame_addr_lt g.PAGE_SIZE j j' i (idx j') hi h
            omega
          · subst h; omega
          · have := frame_addr_lt g.PAGE_SIZE j' j (idx j') i (hidx j' hj') h
            omega
      simp [hz]

/-! ## The translation on a fresh memory -/

theorem frames_fit (g : Geometry) (hfit : g.NUM_FRAMES * g.PAGE_SIZE ≤ 2 ^ 31) (k : Nat)
    (hk : k ≤ g.NUM_FRAMES) : k * g.PAGE_SIZE ≤ 2 ^ 31 ∧ k ≤ 2 ^ 31 := by
  have h1 : k * g.PAGE_SIZE ≤ g.NUM_FRAMES * g.PAGE_SIZE := Nat.mul_le_mul_right _ hk
  have h2 : k ≤ k * g.PAGE_SIZE := Nat.le_mul_of_pos_right _ (PAGE_SIZE_pos g)
  omega

theorem fit_bounds (g : Geometry) (hfit : g.NUM_FRAMES * g.PAGE_SIZE ≤ 2 ^ 31) (k i : Nat)
    (hk : k + 2 ≤ g.NUM_FRAMES) (hi : i < g.PAGE_SIZE) :
    k * g.PAGE_SIZE + i < 2 ^ 64 ∧ (k + 1) * g.PAGE_SIZE ≤ 2 ^ 64 ∧ k + 1 < 2 ^ 31 ∧ k + 1 < 2 ^ 64 := by
  have hf2 := frames_fit g hfit (k + 2) hk
  have h1 : (k + 1) * g.PAGE_SIZE ≤ (k + 2) * g.PAGE_SIZE := Nat.mul_le_mul_right _ (by omega)
  have h2 : k * g.PAGE_SIZE + i < (k + 1) * g.PAGE_SIZE := by rw [Nat.succ_mul]; omega
  have h3 : k * g.PAGE_SIZE + i < 2 ^ 31 := by omega
  have h4 : (k + 1) * g.PAGE_SIZE ≤ 2 ^ 31 := by omega
  have h5 : k + 1 < 2 ^ 31 := by omega
  have h231 : (2 : Nat) ^ 31 ≤ 2 ^ 64 := by norm_num
  exact ⟨lt_of_lt_of_le h3 h231, le_trans h4 h231, h5, lt_of_lt_of_le h5 h231⟩

theorem walkStep_fresh_eq (g : Geometry) (p : Nat) (idx : Nat → Nat) (k : Nat) (w : Walk)
    (hk : k < g.TABLES_DEPTH) (hF : g.TABLES_DEPTH + 1 ≤ g.NUM_FRAMES)
    (hfit : g.NUM_FRAMES * g.PAGE_SIZE ≤ 2 ^ 31)
    (hidx : ∀ j, j ≤ k → idx j < g.PAGE_SIZE) (hinv : FreshInv g idx k w) :
    walkStep g p idx w k =
      { pm := if k ≠ g.TABLES_DEPTH - 1
              then clearTable g (PMwrite w.pm (k * g.PAGE_SIZE + idx k) ((k + 1 : Nat) : Int)) (k + 1)
              else PMrestore g (PMwrite w.pm (k * g.PAGE_SIZE + idx k) ((k + 1 : Nat) : Int)) (k + 1) p
        prevFrame := ((k + 1 : Nat) : Int)
        curFrame := ((k + 1 : Nat) : Int)
        maxFrame := k
        used := fun f => if f = ((k + 1 : Nat) : Int) then true else w.used f } := by
  obtain ⟨hprev, hcur, hmax, hused, hch, hswap⟩ := hinv
  have hP := PAGE_SIZE_pos g
  have hik := hidx k le_rfl
  have hkF : k + 1 < g.NUM_FRAMES := by omega
  have hk2 : k + 2 ≤ g.NUM_FRAMES := by omega
  have hlt : k * g.PAGE_SIZE + idx k < (k + 1) * g.PAGE_SIZE := by rw [Nat.succ_mul]; omega
  have hz : w.pm.ram (k * g.PAGE_SIZE + idx k) = 0 := by
    apply hch.2 _ hlt
    intro j hj
    have := frame_addr_lt g.PAGE_SIZE j k (idx j) (idx k) (hidx j (Nat.le_of_lt hj)) hj
    omega
  obtain ⟨hb1, hb2, hb3, hb4⟩ := fit_bounds g hfit k (idx k) hk2 hik
  have hpa : toU64 (w.prevFrame * (g.PAGE_SIZE : Int) + (idx k : Int)) = k * g.PAGE_SIZE + idx k := by
    rw [hprev]
    exact toU64_addr k g.PAGE_SIZE (idx k) hb1
  have hdfs : DFS g w.pm.ram w.used p g.TABLES_DEPTH 0 0 0 0 (initScan w.maxFrame) = initScan k := by
    have := DFS_chain g w.pm.ram w.used p idx k hk hb2 (fun j hj => hidx j (Nat.le_of_lt hj)) hch hused
      k 0 (Nat.zero_add k) g.TABLES_DEPTH 0 0 0 (initScan w.maxFrame) (Nat.add_zero _)
    rw [Nat.cast_zero] at this
    rw [this]
    simp only [initScan, Scan.mk.injEq, true_and]
    exact Nat.max_eq_right hmax
  have hw : toWord ((k + 1 : Nat) : Int) = ((k + 1 : Nat) : Int) := toWord_natCast (k + 1) hb3
  have hu : toU64 ((k + 1 : Nat) : Int) = k + 1 := toU64_natCast (k + 1) hb4
  have hch2 : chooseFrame g w.pm (initScan k) = (((k + 1 : Nat) : Int), w.pm) := by
    unfold chooseFrame
    have h1 : ¬ ((initScan k).emptyFrame ≠ 0) := by simp [initScan]
    have h2 : (initScan k).maxFrame + 1 < g.NUM_FRAMES := hkF
    rw [if_neg h1, if_pos h2]
    simp only [initScan, hw]
  unfold walkStep
  simp only [hpa, PMread, hz, hdfs, hch2, hu, if_true]
  simp only [initScan]

theorem addr_fit (g : Geometry) (hfit : g.NUM_FRAMES * g.PAGE_SIZE ≤ 2 ^ 31) (k i : Nat)
    (hk : k + 1 ≤ g.NUM_FRAMES) (hi : i < g.PAGE_SIZE) : k * g.PAGE_SIZE + i < 2 ^ 64 := by
  have hf := (frames_fit g hfit (k + 1) hk).1
  have h2 : k * g.PAGE_SIZE + i < (k + 1) * g.PAGE_SIZE := by rw [Nat.succ_mul]; omega
  have h3 : k * g.PAGE_SIZE + i < 2 ^ 31 := by omega
  have h231 : (2 : Nat) ^ 31 ≤ 2 ^ 64 := by norm_num
  exact lt_of_lt_of_le h3 h231

theorem fresh_pm_ram (g : Geometry) (p k A : Nat) (V : Int) (pm : PM)
    (hswap : pm.swap = emptySwap) (a : Nat) :
    (if k ≠ g.TABLES_DEPTH - 1 then clearTable g (PMwrite pm A V) (k + 1)
      else PMrestore g (PMwrite pm A V) (k + 1) p).ram a
      = if (k + 1) * g.PAGE_SIZE ≤ a ∧ a < (k + 1) * g.PAGE_SIZE + g.PAGE_SIZE then 0
        else if a = A then V else pm.ram a := by
  by_cases h : k ≠ g.TABLES_DEPTH - 1
  · rw [if_pos h, clearTable_ram, PMwrite_ram]
  · rw [if_neg h]
    simp only [PMrestore, PMwrite, hswap, emptySwap]

theorem fresh_pm_swap (g : Geometry) (p k A : Nat) (V : Int) (pm : PM)
    (hswap : pm.swap = emptySwap) :
    (if k ≠ g.TABLES_DEPTH - 1 then clearTable g (PMwrite pm A V) (k + 1)
      else PMrestore g (PMwrite pm A V) (k + 1) p).swap = emptySwap := by
  by_cases h : k ≠ g.TABLES_DEPTH - 1
  · rw [if_pos h, clearTable_swap, PMwrite_swap, hswap]
  · rw [if_neg h]
    simp only [PMrestore, PMwrite, hswap]

theorem chain_step (g : Geometry) (idx : Nat → Nat) (k : Nat) (ram ram2 : Nat → Int)
    (hidx : ∀ j, j ≤ k → idx j < g.PAGE_SIZE) (hch : Chain g idx k ram)
    (h2 : ∀ a, ram2 a = if (k + 1) * g.PAGE_SIZE ≤ a ∧ a < (k + 1) * g.PAGE_SIZE + g.PAGE_SIZE then 0
        else if a = k * g.PAGE_SIZE + idx k then ((k + 1 : Nat) : Int) else ram a) :
    Chain g idx (k + 1) ram2 := by
  constructor
  · intro j hj
    have hlt := frame_addr_lt g.PAGE_SIZE j (k + 1) (idx j) 0 (hidx j (by omega)) hj
    rw [h2, if_neg (by omega)]
    by_cases hjk : j = k
    · subst hjk; rw [if_pos rfl]
    · have hjk2 : j < k := by omega
      have := frame_addr_lt g.PAGE_SIZE j k (idx j) (idx k) (hidx j (by omega)) hjk2
      rw [if_neg (by omega)]
      exact hch.1 j hjk2
  · intro a ha hne
    rw [h2]
    by_cases hin : (k + 1) * g.PAGE_SIZE ≤ a ∧ a < (k + 1) * g.PAGE_SIZE + g.PAGE_SIZE
    · rw [if_pos hin]
    · rw [if_neg hin, if_neg (hne k (Nat.lt_succ_self k))]
      apply hch.2
      · have : (k + 1 + 1) * g.PAGE_SIZE = (k + 1) * g.PAGE_SIZE + g.PAGE_SIZE := Nat.succ_mul _ _
        omega
      · intro j hj
        exact hne j (Nat.lt_succ_of_lt hj)

theorem walkStep_fresh (g : Geometry) (p : Nat) (idx : Nat → Nat) (k : Nat) (w : Walk)
    (hk : k < g.TABLES_DEPTH) (hF : g.TABLES_DEPTH + 1 ≤ g.NUM_FRAMES)
    (hfit : g.NUM_FRAMES * g.PAGE_SIZE ≤ 2 ^ 31)
    (hidx : ∀ j, j ≤ k → idx j < g.PAGE_SIZE) (hinv : FreshInv g idx k w) :
    FreshInv g idx (k + 1) (walkStep g p idx w k) := by
  rw [walkStep_fresh_eq g p idx k w hk hF hfit hidx hinv]
  obtain ⟨hprev, hcur, hmax, hused, hch, hswap⟩ := hinv
  refine ⟨rfl, rfl, Nat.le_succ k, ?_, ?_, ?_⟩
  · simp
  · exact chain_step g idx k w.pm.ram _ hidx hch (fun a => fresh_pm_ram g p k _ _ w.pm hswap a)
  · exact fresh_pm_swap g p k _ _ w.pm hswap

theorem walk_fresh (g : Geometry) (pm : PM) (v : Nat)
    (hF : g.TABLES_DEPTH + 1 ≤ g.NUM_FRAMES) (hfit : g.NUM_FRAMES * g.PAGE_SIZE ≤ 2 ^ 31)
    (hv : v < g.VIRTUAL_MEMORY_SIZE) (hroot : ∀ a, a < g.PAGE_SIZE → pm.ram a = 0)
    (hswap : pm.swap = emptySwap) :
    ∀ k, k ≤ g.TABLES_DEPTH →
      FreshInv g (initializePageArray g v) k
        ((List.range k).foldl (walkStep g (v >>> g.OFFSET_WIDTH) (initializePageArray g v))
          (initWalk pm)) := by
  intro k
  induction k with
  | zero =>
    intro _
    refine ⟨rfl, rfl, le_rfl, ?_, ⟨?_, ?_⟩, hswap⟩
    · simp [initWalk]
    · intro j hj; omega
    · intro a ha _
      apply hroot
      simpa using ha
  | succ k ih =>
    intro hk
    rw [List.range_succ, List.foldl_append]
    simp only [List.foldl_cons, List.foldl_nil]
    exact walkStep_fresh g _ _ k _ (by omega) hF hfit
      (fun j hj => pageArray_lt g v j hv (by omega)) (ih (by omega))

theorem walkStep_linked (g : Geometry) (p : Nat) (idx : Nat → Nat) (k : Nat) (pm : PM)
    (hb : k * g.PAGE_SIZE + idx k < 2 ^ 64)
    (hl : pm.ram (k * g.PAGE_SIZE + idx k) = ((k + 1 : Nat) : Int)) (mf : Nat) (u : Int → Bool) :
    walkStep g p idx { pm := pm, prevFrame := (k : Int), curFrame := (k : Int), maxFrame := mf, used := u } k
      = { pm := pm, prevFrame := ((k + 1 : Nat) : Int), curFrame := ((k + 1 : Nat) : Int),
          maxFrame := mf, used := u } := by
  have hpa : toU64 ((k : Int) * (g.PAGE_SIZE : Int) + (idx k : Int)) = k * g.PAGE_SIZE + idx k :=
    toU64_addr k g.PAGE_SIZE (idx k) hb
  have hne : ((k + 1 : Nat) : Int) ≠ 0 := by exact_mod_cast Nat.succ_ne_zero k
  unfold walkStep
  simp only [hpa, PMread, hl, hne, if_false]

theorem walk_linked (g : Geometry) (pm : PM) (v : Nat)
    (hF : g.TABLES_DEPTH + 1 ≤ g.NUM_FRAMES) (hfit : g.NUM_FRAMES * g.PAGE_SIZE ≤ 2 ^ 31)
    (hv : v < g.VIRTUAL_MEMORY_SIZE)
    (hl : ∀ j, j < g.TABLES_DEPTH →
      pm.ram (j * g.PAGE_SIZE + initializePageArray g v j) = ((j + 1 : Nat) : Int)) :
    ∀ k, k ≤ g.TABLES_DEPTH →
      (List.range k).foldl (walkStep g (v >>> g.OFFSET_WIDTH) (initializePageArray g v)) (initWalk pm)
        = { pm := pm, prevFrame := (k : Int), curFrame := (k : Int), maxFrame := 0,
            used := fun f => decide (f = 0) } := by
  intro k
  induction k with
  | zero => intro _; rfl
  | succ k ih =>
    intro hk
    rw [List.range_succ, List.foldl_append, ih (by omega)]
    simp only [List.foldl_cons, List.foldl_nil]
    exact walkStep_linked g _ _ k pm
      (addr_fit g hfit k _ (by omega) (pageArray_lt g v k hv (by omega))) (hl k (by omega)) 0 _

theorem VMinitialize_root (g : Geometry) (pm0 : PM) (a : Nat) (ha : a < g.PAGE_SIZE) :
    ( VMinitialize g pm0).ram a = 0 := by
  unfold VMinitialize
  rw [clearTable_ram, if_pos ⟨by omega, by omega⟩]

theorem VMinitialize_swap (g : Geometry) (pm0 : PM) : ( VMinitialize g pm0).swap = pm0.swap :=
  clearTable_swap g pm0 0

/-- On a memory whose root frame is zero and whose backing store is empty, the translation of an
in-range address ends in frame `D`, on a chain of fresh frames `1..D`, and the word it points to is 0. -/
theorem fresh_translate (g : Geometry) (pm : PM) (v : Nat)
    (hF : g.TABLES_DEPTH + 1 ≤ g.NUM_FRAMES) (hfit : g.NUM_FRAMES * g.PAGE_SIZE ≤ 2 ^ 31)
    (hv : v < g.VIRTUAL_MEMORY_SIZE) (hroot : ∀ a, a < g.PAGE_SIZE → pm.ram a = 0)
    (hswap : pm.swap = emptySwap) :
    (getPhysicalAddress g pm v).1 = g.TABLES_DEPTH * g.PAGE_SIZE + calcOffset g v ∧
    (getPhysicalAddress g pm v).2.ram (g.TABLES_DEPTH * g.PAGE_SIZE + calcOffset g v) = 0 ∧
    ∀ j, j < g.TABLES_DEPTH →
      (getPhysicalAddress g pm v).2.ram (j * g.PAGE_SIZE + initializePageArray g v j)
        = ((j + 1 : Nat) : Int) := by
  have hinv := walk_fresh g pm v hF hfit hv hroot hswap g.TABLES_DEPTH le_rfl
  change FreshInv g _ _ (walk g pm v) at hinv
  obtain ⟨_, hcur, _, _, hch, _⟩ := hinv
  have hoff := calcOffset_lt g v
  have hb := addr_fit g hfit g.TABLES_DEPTH (calcOffset g v) hF hoff
  refine ⟨?_, ?_, ?_⟩
  · simp only [getPhysicalAddress, hcur]
    exact toU64_addr _ _ _ hb
  · simp only [getPhysicalAddress]
    apply hch.2
    · rw [Nat.succ_mul]; omega
    · intro j hj
      have := frame_addr_lt g.PAGE_SIZE j g.TABLES_DEPTH (initializePageArray g v j) (calcOffset g v)
        (pageArray_lt g v j hv (by omega)) hj
      omega
  · intro j hj
    simp only [getPhysicalAddress]
    exact hch.1 j hj

/-- On a memory in which the path of `v` is the chain of frames `1..D`, the translation changes
nothing and returns the address in frame `D`. -/
theorem linked_translate (g : Geometry) (pm : PM) (v : Nat)
    (hF : g.TABLES_DEPTH + 1 ≤ g.NUM_FRAMES) (hfit : g.NUM_FRAMES * g.PAGE_SIZE ≤ 2 ^ 31)
    (hv : v < g.VIRTUAL_MEMORY_SIZE)
    (hl : ∀ j, j < g.TABLES_DEPTH →
      pm.ram (j * g.PAGE_SIZE + initializePageArray g v j) = ((j + 1 : Nat) : Int)) :
    getPhysicalAddress g pm v = (g.TABLES_DEPTH * g.PAGE_SIZE + calcOffset g v, pm) := by
  have hw := walk_linked g pm v hF hfit hv hl g.TABLES_DEPTH le_rfl
  change walk g pm v = _ at hw
  have hb := addr_fit g hfit g.TABLES_DEPTH (calcOffset g v) hF (calcOffset_lt g v)
  simp only [getPhysicalAddress, hw]
  rw [toU64_addr _ _ _ hb]

theorem checkFailure_of_lt (g : Geometry) (v : Nat) (hv : v < g.VIRTUAL_MEMORY_SIZE) :
    checkFailure g v = false := by
  simp [checkFailure, hv]


/-! ## The range check and the return value -/

/-- C4: for every memory and every virtual address `v ≥ VIRTUAL_MEMORY_SIZE`, `VMread` and
`VMwrite` return 0 and leave the physical memory and the backing store (and, for the read,
the word behind `value`) exactly as they were. -/
theorem range_check (g : Geometry) (pm : PM) (v : Nat) (value x : Int)
    (h : g.VIRTUAL_MEMORY_SIZE ≤ v) :
    (VMread g pm v value).ret = 0 ∧ (VMread g pm v value).pm = pm ∧
    (VMread g pm v value).value = value ∧
    (VMwrite g pm v x).ret = 0 ∧ (VMwrite g pm v x).pm = pm := by
  have hc : checkFailure g v = true := by simp [checkFailure, h]
  simp [VMread, VMwrite, hc]

/-- C4 at `W = 1, D = 4, F = 5`: `read(32)` and `write(32, 9)` on the fresh memory. -/
theorem range_check_witness :
    geom145.VIRTUAL_MEMORY_SIZE ≤ 32 ∧
    ((VMread geom145 (freshPM geom145) 32 5).ret = 0 ∧
     (VMread geom145 (freshPM geom145) 32 5).pm = freshPM geom145 ∧
     (VMread geom145 (freshPM geom145) 32 5).value = 5 ∧
     (VMwrite geom145 (freshPM geom145) 32 9).ret = 0 ∧
     (VMwrite geom145 (freshPM geom145) 32 9).pm = freshPM geom145) :=
  ⟨by decide, range_check geom145 (freshPM geom145) 32 5 9 (by decide)⟩

/-- The return value when the device is a total function of the address: for every memory
and every virtual address, `VMread` and `VMwrite` return 1 when the address is below
`VIRTUAL_MEMORY_SIZE` and 0 otherwise.  Which addresses the call hands to the device is not
part of this statement. -/
theorem no_legal_call_fails (g : Geometry) (pm : PM) (v : Nat) (value x : Int) :
    (VMread g pm v value).ret = (if v < g.VIRTUAL_MEMORY_SIZE then 1 else 0) ∧
    (VMwrite g pm v x).ret = (if v < g.VIRTUAL_MEMORY_SIZE then 1 else 0) := by
  by_cases h : v < g.VIRTUAL_MEMORY_SIZE
  · have hc : checkFailure g v = false := by simp [checkFailure, h]
    simp [VMread, VMwrite, hc, h]
  · have hc : checkFailure g v = true := by simp [checkFailure, Nat.le_of_not_lt h]
    simp [VMread, VMwrite, hc, h]

/-! ## Reads and writes on a fresh memory -/

/-- C5 (cold read): immediately after `VMinitialize`, with an empty backing store (restore of
a never-evicted page yields zeros), `F ≥ D + 1` and physical addresses that fit the machine
word (`F · P ≤ 2^31`), for every `v < V` and whatever the prior contents of the frames,
`VMread(v)` returns 1 and yields 0. -/
theorem cold_read (g : Geometry) (pm0 : PM) (v : Nat) (value : Int)
    (hF : g.TABLES_DEPTH + 1 ≤ g.NUM_FRAMES) (hfit : g.NUM_FRAMES * g.PAGE_SIZE ≤ 2 ^ 31)
    (hswap : pm0.swap = emptySwap) (hv : v < g.VIRTUAL_MEMORY_SIZE) :
    (VMread g ( VMinitialize g pm0) v value).ret = 1 ∧
    (VMread g ( VMinitialize g pm0) v value).value = 0 := by
  have ht := fresh_translate g ( VMinitialize g pm0) v hF hfit hv
    (VMinitialize_root g pm0) ((VMinitialize_swap g pm0).trans hswap)
  have hc := checkFailure_of_lt g v hv
  simp only [VMread, hc, Bool.false_eq_true, if_false, PMread, ht.1, ht.2.1, and_self]

/-- C5 at `W = 1, D = 4, F = 5`, `v = 13`, on a memory whose words were all non-zero before
`VMinitialize`. -/
theorem cold_read_witness :
    (geom145.TABLES_DEPTH + 1 ≤ geom145.NUM_FRAMES ∧
      geom145.NUM_FRAMES * geom145.PAGE_SIZE ≤ 2 ^ 31 ∧ junkPM.swap = emptySwap ∧
      13 < geom145.VIRTUAL_MEMORY_SIZE) ∧
    ((VMread geom145 ( VMinitialize geom145 junkPM) 13 99).ret = 1 ∧
      (VMread geom145 ( VMinitialize geom145 junkPM) 13 99).value = 0) :=
  ⟨⟨by decide, by decide, rfl, by decide⟩,
    cold_read geom145 junkPM 13 99 (by decide) (by decide) rfl (by decide)⟩

/-- C6 (basic round-trip on a fresh memory): immediately after `VMinitialize`, with an empty
backing store, `F ≥ D + 1` and physical addresses that fit the machine word
(`F · P ≤ 2^31`), for every `v < V`, every word `x` and whatever the prior contents of the
frames, `VMwrite(v, x)` returns 1 and the `VMread(v)` that follows it returns 1 and yields `x`. -/
theorem fresh_round_trip (g : Geometry) (pm0 : PM) (v : Nat) (x value : Int)
    (hF : g.TABLES_DEPTH + 1 ≤ g.NUM_FRAMES) (hfit : g.NUM_FRAMES * g.PAGE_SIZE ≤ 2 ^ 31)
    (hswap : pm0.swap = emptySwap) (hv : v < g.VIRTUAL_MEMORY_SIZE) :
    (VMwrite g ( VMinitialize g pm0) v x).ret = 1 ∧
    (VMread g (VMwrite g ( VMinitialize g pm0) v x).pm v value).ret = 1 ∧
    (VMread g (VMwrite g ( VMinitialize g pm0) v x).pm v value).value = x := by
  have ht := fresh_translate g ( VMinitialize g pm0) v hF hfit hv
    (VMinitialize_root g pm0) ((VMinitialize_swap g pm0).trans hswap)
  have hc := checkFailure_of_lt g v hv
  have hpm : (VMwrite g ( VMinitialize g pm0) v x).pm
      = PMwrite (getPhysicalAddress g ( VMinitialize g pm0) v).2
          (g.TABLES_DEPTH * g.PAGE_SIZE + calcOffset g v) x := by
    simp only [VMwrite, hc, Bool.false_eq_true, if_false, ht.1]
  have hl : ∀ j, j < g.TABLES_DEPTH →
      (VMwrite g ( VMinitialize g pm0) v x).pm.ram (j * g.PAGE_SIZE + initializePageArray g v j)
        = ((j + 1 : Nat) : Int) := by
    intro j hj
    have := frame_addr_lt g.PAGE_SIZE j g.TABLES_DEPTH (initializePageArray g v j) (calcOffset g v)
      (pageArray_lt g v j hv (by omega)) hj
    rw [hpm, PMwrite_ram, if_neg (by omega)]
    exact ht.2.2 j hj
  have hlt := linked_translate g _ v hF hfit hv hl
  refine ⟨?_, ?_, ?_⟩
  · simp only [VMwrite, hc, Bool.false_eq_true, if_false]
  · simp only [VMread, hc, Bool.false_eq_true, if_false]
  · simp only [VMread, hc, Bool.false_eq_true, if_false, hlt, PMread]
    rw [hpm, PMwrite_ram, if_pos rfl]

/-- C6 at `W = 1, D = 4, F = 5`: `write(13, 3); read(13)` on a memory whose words were all
non-zero before `VMinitialize`. -/
theorem fresh_round_trip_witness :
    (geom145.TABLES_DEPTH + 1 ≤ geom145.NUM_FRAMES ∧
      geom145.NUM_FRAMES * geom145.PAGE_SIZE ≤ 2 ^ 31 ∧ junkPM.swap = emptySwap ∧
      13 < geom145.VIRTUAL_MEMORY_SIZE) ∧
    ((VMwrite geom145 ( VMinitialize geom145 junkPM) 13 3).ret = 1 ∧
      (VMread geom145 (VMwrite geom145 ( VMinitialize geom145 junkPM) 13 3).pm 13 99).ret = 1 ∧
      (VMread geom145 (VMwrite geom145 ( VMinitialize geom145 junkPM) 13 3).pm 13 99).value = 3) :=
  ⟨⟨by decide, by decide, rfl, by decide⟩,
    fresh_round_trip geom145 junkPM 13 3 99 (by decide) (by decide) rfl (by decide)⟩

/-! ## The scenarios of the specification at `W = 1, D = 4, F = 5` -/

/-- Forced eviction: the pages 0, 2, 4, 6, 8, 10, 12 are written with their page number
(addresses 0, 4, .., 24) and read back in the same order; every read yields the page number. -/
theorem forced_eviction_geom145 :
    readMany geom145
      (run geom145 (freshPM geom145)
        [.write 0 0, .write 4 2, .write 8 4, .write 12 6, .write 16 8, .write 20 10, .write 24 12])
      [0, 4, 8, 12, 16, 20, 24] = [0, 2, 4, 6, 8, 10, 12] := by
  decide!

/-- Cross-page isolation: `write(6,42); write(31,99); read(6); read(31)` yields 42 and 99. -/
theorem cross_page_geom145 :
    readMany geom145 (run geom145 (freshPM geom145) [.write 6 42, .write 31 99]) [6, 31]
      = [42, 99] := by
  decide!

/-! ## The code at the inputs where it departs from the contract -/

/-- C1 at a failing input, `W = 1, D = 2, F = 4` (so `F = D + 2`): in the state reached by
`write(0,7); write(4,9)` the call `write(0,5)` returns 1 and the `read(0)` that follows it
returns 1, yet it yields 7 and not the 5 just written. -/
theorem roundTrip_geom124_lost_write :
    geom124.TABLES_DEPTH + 1 ≤ geom124.NUM_FRAMES ∧
    (VMwrite geom124 (run geom124 (freshPM geom124) [.write 0 7, .write 4 9]) 0 5).ret = 1 ∧
    (VMread geom124
      (VMwrite geom124 (run geom124 (freshPM geom124) [.write 0 7, .write 4 9]) 0 5).pm 0 0).ret = 1 ∧
    (VMread geom124
      (VMwrite geom124 (run geom124 (freshPM geom124) [.write 0 7, .write 4 9]) 0 5).pm 0 0).value = 7 := by
  decide!

/-- C2 at a failing input, `W = 1, D = 2, F = 4`: after
`write(0,10); write(4,12); write(0,20); read(4)` the read of address 0 yields 10, the value
of the first write to address 0, and not 20, the value of the most recent one; the read of
address 4 in between yields 12. -/
theorem persistence_geom124_stale_read :
    readValue geom124 (run geom124 (freshPM geom124) [.write 0 10, .write 4 12, .write 0 20]) 4 = 12 ∧
    readValue geom124
      (run geom124 (freshPM geom124) [.write 0 10, .write 4 12, .write 0 20, .read 4]) 0 = 10 := by
  decide!

/-- C3 at a failing input, `W = 1, D = 3, F = 5` (so `F = D + 2`): in the state reached by
`write(0,10); write(8,20)` a read of address 0 yields 10, but after `write(2,55)` in that
state the read of address 0 yields 3. -/
theorem isolation_geom135_changed_read :
    geom135.TABLES_DEPTH + 1 ≤ geom135.NUM_FRAMES ∧
    readValue geom135 (run geom135 (freshPM geom135) [.write 0 10, .write 8 20]) 0 = 10 ∧
    readValue geom135
      (VMwrite geom135 (run geom135 (freshPM geom135) [.write 0 10, .write 8 20]) 2 55).pm 0 = 3 := by
  decide!

/-- C7 at a failing input, `W = 1, D = 3, F = 5`: after
`read(0); read(8); read(0); write(1,3)` both slots of the root table hold frame 3, so the
entries of the reachable tables are `3, 4, 3, 4` and frame 3 (and frame 4) occurs twice. -/
theorem treeShape_geom135_duplicate :
    (run geom135 (freshPM geom135) [.read 0, .read 8, .read 0, .write 1 3]).ram 0 = 3 ∧
    (run geom135 (freshPM geom135) [.read 0, .read 8, .read 0, .write 1 3]).ram 1 = 3 ∧
    tableEntries geom135
      (run geom135 (freshPM geom135) [.read 0, .read 8, .read 0, .write 1 3]).ram 3 0 = [3, 4, 3, 4] ∧
    ¬ (tableEntries geom135
      (run geom135 (freshPM geom135) [.read 0, .read 8, .read 0, .write 1 3]).ram 3 0).Nodup := by
  decide!

/-- C8 at a failing input, `W = 1, D = 3, F = 5`: in the state reached by
`read(0); read(8); read(0)` the translation of address 0 finds three missing links and
chooses frames 3, 4 and then frame 0. -/
theorem rootStability_geom135_frame_zero :
    geom135.TABLES_DEPTH + 1 ≤ geom135.NUM_FRAMES ∧
    chosenFrames geom135 (run geom135 (freshPM geom135) [.read 0, .read 8, .read 0]) 0 = [3, 4, 0] := by
  decide!

/-- C10 at a failing input, `W = 1, D = 2, F = 4`: in the state reached by
`read(0); read(4)`, `getPhysicalAddress(0)` returns address 2 (frame 1), while in the memory
it leaves the root slot of address 0 reads 0, so the walk from frame 0 reaches no frame. -/
theorem walker_geom124_unlinked :
    (getPhysicalAddress geom124 (run geom124 (freshPM geom124) [.read 0, .read 4]) 0).1 = 2 ∧
    (getPhysicalAddress geom124 (run geom124 (freshPM geom124) [.read 0, .read 4]) 0).2.ram 0 = 0 ∧
    lookup geom124
      (getPhysicalAddress geom124 (run geom124 (freshPM geom124) [.read 0, .read 4]) 0).2.ram 0 = none := by
  decide!

/-! ## Cyclic distance -/

theorem u64sub_eq (a b : Nat) (hb : b ≤ a) (ha : a < 2 ^ 64) : u64sub a b = a - b := by
  unfold u64sub
  rw [Nat.mod_eq_of_lt ha, Nat.mod_eq_of_lt (lt_of_le_of_lt hb ha)]
  have h : a + 2 ^ 64 - b = (a - b) + 2 ^ 64 := by omega
  rw [h, Nat.add_mod_right]
  exact Nat.mod_eq_of_lt (lt_of_le_of_lt (Nat.sub_le a b) ha)

theorem calc_cyclic_eq (g : Geometry) (p1 p2 : Nat) (hN : g.NUM_PAGES < 2 ^ 64)
    (h1 : p1 < g.NUM_PAGES) (h2 : p2 < g.NUM_PAGES) :
    calc_cyclic g p1 p2
      = min (max p1 p2 - min p1 p2) (g.NUM_PAGES - (max p1 p2 - min p1 p2)) := by
  have hd : (if p2 < p1 then u64sub p1 p2 else u64sub p2 p1) = max p1 p2 - min p1 p2 := by
    split_ifs with h
    · rw [u64sub_eq p1 p2 (Nat.le_of_lt h) (lt_trans h1 hN), Nat.max_eq_left (Nat.le_of_lt h),
        Nat.min_eq_right (Nat.le_of_lt h)]
    · have h' : p1 ≤ p2 := Nat.le_of_not_lt h
      rw [u64sub_eq p2 p1 h' (lt_trans h2 hN), Nat.max_eq_right h', Nat.min_eq_left h']
  have hle : max p1 p2 - min p1 p2 ≤ g.NUM_PAGES := by
    have : max p1 p2 < g.NUM_PAGES := max_lt h1 h2
    exact le_trans (Nat.sub_le _ _) (Nat.le_of_lt this)
  unfold calc_cyclic
  simp only [hd]
  rw [u64sub_eq g.NUM_PAGES _ hle hN]
  split_ifs with h
  · exact (Nat.min_eq_right h).symm
  · exact (Nat.min_eq_left (Nat.le_of_lt (Nat.lt_of_not_le h))).symm

/-- C17 (cyclic distance): for all pages `p1, p2 < NUM_PAGES` (with `NUM_PAGES` representable
in `uint64_t`), `calc_cyclic(p1, p2)` is `min(|p1 - p2|, N - |p1 - p2|)`, no subtraction
wrapping around; it is symmetric, it is 0 exactly when `p1 = p2`, and it never exceeds
`N / 2`. -/
theorem calc_cyclic_spec (g : Geometry) (p1 p2 : Nat) (hN : g.NUM_PAGES < 2 ^ 64)
    (h1 : p1 < g.NUM_PAGES) (h2 : p2 < g.NUM_PAGES) :
    calc_cyclic g p1 p2
      = min (max p1 p2 - min p1 p2) (g.NUM_PAGES - (max p1 p2 - min p1 p2)) ∧
    calc_cyclic g p1 p2 = calc_cyclic g p2 p1 ∧
    (calc_cyclic g p1 p2 = 0 ↔ p1 = p2) ∧
    calc_cyclic g p1 p2 ≤ g.NUM_PAGES / 2 := by
  have e1 := calc_cyclic_eq g p1 p2 hN h1 h2
  have e2 := calc_cyclic_eq g p2 p1 hN h2 h1
  clear hN
  refine ⟨e1, ?_, ?_, ?_⟩
  · rw [e1, e2, max_comm p2 p1, min_comm p2 p1]
  · rw [e1]
    rcases Nat.lt_trichotomy p1 p2 with h | h | h
    · rw [Nat.max_eq_right (Nat.le_of_lt h), Nat.min_eq_left (Nat.le_of_lt h)]
      constructor
      · intro hz; rw [Nat.min_def] at hz; split_ifs at hz <;> omega
      · intro he; omega
    · subst h; simp
    · rw [Nat.max_eq_left (Nat.le_of_lt h), Nat.min_eq_right (Nat.le_of_lt h)]
      constructor
      · intro hz; rw [Nat.min_def] at hz; split_ifs at hz <;> omega
      · intro he; omega
  · rw [e1, Nat.min_def]
    split_ifs <;> omega

/-- C17 at `W = 1, D = 4` (16 pages): pages 3 and 14. -/
theorem calc_cyclic_spec_witness :
    (geom145.NUM_PAGES < 2 ^ 64 ∧ 3 < geom145.NUM_PAGES ∧ 14 < geom145.NUM_PAGES) ∧
    (calc_cyclic geom145 3 14
        = min (max 3 14 - min 3 14) (geom145.NUM_PAGES - (max 3 14 - min 3 14)) ∧
      calc_cyclic geom145 3 14 = calc_cyclic geom145 14 3 ∧
      (calc_cyclic geom145 3 14 = 0 ↔ 3 = 14) ∧
      calc_cyclic geom145 3 14 ≤ geom145.NUM_PAGES / 2) :=
  ⟨⟨by decide, by decide, by decide⟩,
    calc_cyclic_spec geom145 3 14 (by decide) (by decide) (by decide)⟩

/-! ## Address decomposition -/

theorem pageArrayLoop_succ_low (g : Geometry) (d v : Nat) (arr : Nat → Nat) (k : Nat) :
    initializePageArrayLoop g (d + 1) v arr k
      = initializePageArrayLoop g d (v >>> g.OFFSET_WIDTH)
          (fun i => if i = d + 1 then v &&& (g.PAGE_SIZE - 1) else arr i) k := by
  rw [initializePageArrayLoop]

theorem pageArrayLoop_succ_top (g : Geometry) (d v : Nat) (arr : Nat → Nat) :
    initializePageArrayLoop g (d + 1) v arr (d + 1) = v % g.PAGE_SIZE := by
  rw [initializePageArrayLoop, pageArrayLoop_above g d _ _ (d + 1) (Nat.lt_succ_self d)]
  simp only [if_true]
  unfold Geometry.PAGE_SIZE
  exact Nat.and_pow_two_sub_one_eq_mod _ _

theorem pageArrayLoop_sum (g : Geometry) :
    ∀ (d v : Nat) (arr : Nat → Nat),
      (∑ k in Finset.range (d + 1), initializePageArrayLoop g d v arr k * g.PAGE_SIZE ^ (d - k)) = v := by
  intro d
  induction d with
  | zero => intro v arr; simp [initializePageArrayLoop]
  | succ d ih =>
    intro v arr
    rw [Finset.sum_range_succ, pageArrayLoop_succ_top, Nat.sub_self, pow_zero, Nat.mul_one]
    have hs : (∑ k in Finset.range (d + 1),
          initializePageArrayLoop g (d + 1) v arr k * g.PAGE_SIZE ^ (d + 1 - k))
        = g.PAGE_SIZE * (∑ k in Finset.range (d + 1),
          initializePageArrayLoop g d (v >>> g.OFFSET_WIDTH)
            (fun i => if i = d + 1 then v &&& (g.PAGE_SIZE - 1) else arr i) k * g.PAGE_SIZE ^ (d - k)) := by
      rw [Finset.mul_sum]
      apply Finset.sum_congr rfl
      intro k hk
      have hk' : k ≤ d := Nat.lt_succ_iff.mp (Finset.mem_range.mp hk)
      rw [pageArrayLoop_succ_low, Nat.succ_sub hk', pow_succ]
      ring
    rw [hs, ih, Nat.shiftRight_eq_div_pow]
    exact Nat.div_add_mod v (2 ^ g.OFFSET_WIDTH)

theorem pageArray_page_sum (g : Geometry) (v : Nat) (hv : v < g.VIRTUAL_MEMORY_SIZE) :
    (∑ k in Finset.range g.TABLES_DEPTH,
        initializePageArray g v k * g.PAGE_SIZE ^ (g.TABLES_DEPTH - 1 - k)) = v >>> g.OFFSET_WIDTH := by
  unfold initializePageArray
  unfold Geometry.VIRTUAL_MEMORY_SIZE at hv
  generalize g.TABLES_DEPTH = D at *
  cases D with
  | zero =>
    simp only [Finset.range_zero, Finset.sum_empty]
    rw [Nat.shiftRight_eq_div_pow]
    simp only [Nat.zero_add, Nat.one_mul] at hv
    exact (Nat.div_eq_of_lt hv).symm
  | succ d =>
    have hs : (∑ k in Finset.range (d + 1),
          initializePageArrayLoop g (d + 1) v (fun _ => 0) k * g.PAGE_SIZE ^ (d + 1 - 1 - k))
        = ∑ k in Finset.range (d + 1),
          initializePageArrayLoop g d (v >>> g.OFFSET_WIDTH)
            (fun i => if i = d + 1 then v &&& (g.PAGE_SIZE - 1) else (fun _ => 0) i) k
              * g.PAGE_SIZE ^ (d - k) := by
      apply Finset.sum_congr rfl
      intro k _
      rw [pageArrayLoop_succ_low, Nat.add_sub_cancel]
    rw [hs, pageArrayLoop_sum]

theorem pageArray_last (g : Geometry) (v : Nat) (hv : v < g.VIRTUAL_MEMORY_SIZE) :
    initializePageArray g v g.TABLES_DEPTH = v % g.PAGE_SIZE := by
  unfold initializePageArray
  unfold Geometry.VIRTUAL_MEMORY_SIZE at hv
  generalize g.TABLES_DEPTH = D at *
  cases D with
  | zero =>
    simp only [Nat.zero_add, Nat.one_mul] at hv
    simp only [initializePageArrayLoop, if_true]
    exact (Nat.mod_eq_of_lt hv).symm
  | succ d => exact pageArrayLoop_succ_top g d v _

/-- C18 (address decomposition): for every `v < V`, `initializePageArray` produces the groups
`g_0, .., g_D`, each below `PAGE_SIZE`, with `g_D = calcOffset(v) = v mod PAGE_SIZE` and
`v = Σ g_k · PAGE_SIZE^(D-k)`; the `D` table indices `g_0 .. g_(D-1)` recombine to the page
number `v >> W`; and two addresses below `V` with the same groups are equal. -/
theorem pageArray_decomposition (g : Geometry) (v : Nat) (hv : v < g.VIRTUAL_MEMORY_SIZE) :
    (∀ k, k ≤ g.TABLES_DEPTH → initializePageArray g v k < g.PAGE_SIZE) ∧
    initializePageArray g v g.TABLES_DEPTH = calcOffset g v ∧
    calcOffset g v = v % g.PAGE_SIZE ∧
    (∑ k in Finset.range (g.TABLES_DEPTH + 1),
        initializePageArray g v k * g.PAGE_SIZE ^ (g.TABLES_DEPTH - k)) = v ∧
    (∑ k in Finset.range g.TABLES_DEPTH,
        initializePageArray g v k * g.PAGE_SIZE ^ (g.TABLES_DEPTH - 1 - k)) = v >>> g.OFFSET_WIDTH ∧
    (∀ v', v' < g.VIRTUAL_MEMORY_SIZE →
      (∀ k, k ≤ g.TABLES_DEPTH → initializePageArray g v' k = initializePageArray g v k) → v' = v) := by
  refine ⟨fun k hk => pageArray_lt g v k hv hk, ?_, calcOffset_eq_mod g v,
    pageArrayLoop_sum g g.TABLES_DEPTH v _, pageArray_page_sum g v hv, ?_⟩
  · rw [calcOffset_eq_mod, pageArray_last g v hv]
  · intro v' _ heq
    have h1 := pageArrayLoop_sum g g.TABLES_DEPTH v (fun _ => 0)
    have h2 := pageArrayLoop_sum g g.TABLES_DEPTH v' (fun _ => 0)
    rw [← h1, ← h2]
    apply Finset.sum_congr rfl
    intro k hk
    have hk' : k ≤ g.TABLES_DEPTH := Nat.lt_succ_iff.mp (Finset.mem_range.mp hk)
    have := heq k hk'
    unfold initializePageArray at this
    rw [this]

/-- C18 at `W = 1, D = 4`, `v = 13` (binary `01101`): the groups are 0, 1, 1, 0 and offset 1. -/
theorem pageArray_decomposition_witness :
    13 < geom145.VIRTUAL_MEMORY_SIZE ∧
    ((∀ k, k ≤ geom145.TABLES_DEPTH → initializePageArray geom145 13 k < geom145.PAGE_SIZE) ∧
    initializePageArray geom145 13 geom145.TABLES_DEPTH = calcOffset geom145 13 ∧
    calcOffset geom145 13 = 13 % geom145.PAGE_SIZE ∧
    (∑ k in Finset.range (geom145.TABLES_DEPTH + 1),
        initializePageArray geom145 13 k * geom145.PAGE_SIZE ^ (geom145.TABLES_DEPTH - k)) = 13 ∧
    (∑ k in Finset.range geom145.TABLES_DEPTH,
        initializePageArray geom145 13 k * geom145.PAGE_SIZE ^ (geom145.TABLES_DEPTH - 1 - k))
      = 13 >>> geom145.OFFSET_WIDTH ∧
    (∀ v', v' < geom145.VIRTUAL_MEMORY_SIZE →
      (∀ k, k ≤ geom145.TABLES_DEPTH →
        initializePageArray geom145 v' k = initializePageArray geom145 13 k) → v' = 13)) :=
  ⟨by decide, pageArray_decomposition geom145 13 (by decide)⟩

/-! ## The fault-free path -/

theorem walkStep_present (g : Geometry) (p : Nat) (idx : Nat → Nat) (w : Walk) (i : Nat)
    (h : w.pm.ram (toU64 (w.prevFrame * g.PAGE_SIZE + idx i)) ≠ 0) :
    walkStep g p idx w i
      = { w with prevFrame := w.pm.ram (toU64 (w.prevFrame * g.PAGE_SIZE + idx i)),
                 curFrame := w.pm.ram (toU64 (w.prevFrame * g.PAGE_SIZE + idx i)) } := by
  unfold walkStep
  simp only [PMread, h, if_false]

theorem walk_lookupFrom (g : Geometry) (p : Nat) (idx : Nat → Nat) (f : Int) :
    ∀ (l : List Nat) (w : Walk), w.curFrame = w.prevFrame →
      lookupFrom g w.pm.ram idx l w.prevFrame = some f →
      l.foldl (walkStep g p idx) w = { w with prevFrame := f, curFrame := f } := by
  intro l
  induction l with
  | nil =>
    intro w hc hl
    simp only [lookupFrom, Option.some.injEq] at hl
    simp only [List.foldl_nil]
    cases w
    simp only at hc hl
    subst hl; subst hc; rfl
  | cons i rest ih =>
    intro w _ hl
    rw [lookupFrom] at hl
    by_cases he : w.pm.ram (toU64 (w.prevFrame * g.PAGE_SIZE + idx i)) = 0
    · simp [he] at hl
    · simp only [he, if_false] at hl
      rw [List.foldl_cons, walkStep_present g p idx w i he]
      exact ih _ rfl hl

/-- C12 (fault-free path): for every memory and every `v < V` such that the `D` entries read
from frame 0 along the indices of `v` are all non-zero, ending at entry `f`,
`getPhysicalAddress(v)` leaves the physical memory and the backing store unchanged and returns
`f · PAGE_SIZE + (v mod PAGE_SIZE)` (as a `uint64_t`); `VMread(v)` returns 1, yields the word
stored at that address and changes nothing. -/
theorem fault_free_path (g : Geometry) (pm : PM) (v : Nat) (f value : Int)
    (hv : v < g.VIRTUAL_MEMORY_SIZE) (hl : lookup g pm.ram v = some f) :
    getPhysicalAddress g pm v = (toU64 (f * g.PAGE_SIZE + (v % g.PAGE_SIZE : Nat)), pm) ∧
    (VMread g pm v value).ret = 1 ∧
    (VMread g pm v value).value = pm.ram (toU64 (f * g.PAGE_SIZE + (v % g.PAGE_SIZE : Nat))) ∧
    (VMread g pm v value).pm = pm := by
  have hw : walk g pm v = { initWalk pm with prevFrame := f, curFrame := f } :=
    walk_lookupFrom g _ _ f _ (initWalk pm) rfl hl
  have hg : getPhysicalAddress g pm v = (toU64 (f * g.PAGE_SIZE + (v % g.PAGE_SIZE : Nat)), pm) := by
    simp only [getPhysicalAddress, hw, calcOffset_eq_mod, initWalk]
  have hc := checkFailure_of_lt g v hv
  refine ⟨hg, ?_, ?_, ?_⟩
  · simp only [VMread, hc, Bool.false_eq_true, if_false]
  · simp only [VMread, hc, Bool.false_eq_true, if_false, hg, PMread]
  · simp only [VMread, hc, Bool.false_eq_true, if_false, hg]

/-- C12 at `W = 1, D = 2, F = 4`: after `write(0,7)` the path of address 1 ends at frame 2. -/
theorem fault_free_path_witness :
    (1 < geom124.VIRTUAL_MEMORY_SIZE ∧
      lookup geom124 (run geom124 (freshPM geom124) [.write 0 7]).ram 1 = some 2) ∧
    (getPhysicalAddress geom124 (run geom124 (freshPM geom124) [.write 0 7]) 1
        = (toU64 ((2 : Int) * geom124.PAGE_SIZE + (1 % geom124.PAGE_SIZE : Nat)),
            run geom124 (freshPM geom124) [.write 0 7]) ∧
      (VMread geom124 (run geom124 (freshPM geom124) [.write 0 7]) 1 9).ret = 1 ∧
      (VMread geom124 (run geom124 (freshPM geom124) [.write 0 7]) 1 9).value
        = (run geom124 (freshPM geom124) [.write 0 7]).ram
            (toU64 ((2 : Int) * geom124.PAGE_SIZE + (1 % geom124.PAGE_SIZE : Nat))) ∧
      (VMread geom124 (run geom124 (freshPM geom124) [.write 0 7]) 1 9).pm
        = run geom124 (freshPM geom124) [.write 0 7]) :=
  ⟨⟨by decide, by decide!⟩,
    fault_free_path geom124 (run geom124 (freshPM geom124) [.write 0 7]) 1 2 9 (by decide)
      (by decide!)⟩

/-! ## The allocation policy -/

/-- Cases of the allocation policy: at `W = 1, D = 2, F = 4`, in the
translation of address 4 after `write(0,7)`, level 0 takes the unused frame 3 (the scan
reports no empty table and `maxFrame = 2`) and level 1 evicts the leaf frame 2. -/
theorem allocation_cases_geom124 :
    chosenFrames geom124 (run geom124 (freshPM geom124) [.write 0 7]) 4 = [3, 2] ∧
    (scanAt geom124 2 demoWalk).emptyFrame = 0 ∧ (scanAt geom124 2 demoWalk).maxFrame = 2 := by
  decide!

/-! ## The scan as a fold over what it reaches -/

theorem foldl_flag_fst {α β : Type} (child : Nat → Scan → Scan) (nz : Nat → Prop)
    [DecidablePred nz] (π : Scan → α) (items : Nat → List β) (step : α → β → α)
    (hchild : ∀ page sc, nz page → π (child page sc) = (items page).foldl step (π sc)) :
    ∀ (pages : List Nat) (acc : Scan × Bool),
      π (pages.foldl (fun (acc : Scan × Bool) page =>
            if nz page then (child page acc.1, false) else acc) acc).1
        = (pages.flatMap fun page => if nz page then items page else []).foldl step (π acc.1) := by
  intro pages
  induction pages with
  | nil => intro acc; rfl
  | cons page rest ih =>
    intro acc
    rw [List.foldl_cons, ih, List.flatMap_cons, List.foldl_append]
    by_cases h : nz page
    · simp only [h, if_true, hchild page acc.1 h]
    · simp only [h, if_false, List.foldl_nil]

theorem foldl_flag_snd (child : Nat → Scan → Scan) (nz : Nat → Prop) [DecidablePred nz] :
    ∀ (pages : List Nat) (acc : Scan × Bool),
      (pages.foldl (fun (acc : Scan × Bool) page =>
            if nz page then (child page acc.1, false) else acc) acc).2
        = (acc.2 && pages.all fun page => decide (¬ nz page)) := by
  intro pages
  induction pages with
  | nil => intro acc; simp
  | cons page rest ih =>
    intro acc
    rw [List.foldl_cons, ih, List.all_cons]
    by_cases h : nz page
    · simp [h]
    · simp [h]

theorem bump_victim (sc : Scan) (j : Nat) :
    (if j > sc.maxFrame then { sc with maxFrame := j } else sc).victim = sc.victim := by
  split_ifs <;> rfl

theorem saveEmptyFrame_victim (g : Geometry) (sc : Scan) (f pf : Int) (off : Nat) :
    (saveEmptyFrame g sc f pf off).victim = sc.victim := rfl

theorem saveFrameToEvict_victim (g : Geometry) (p cp : Nat) (sc : Scan) (f pf : Int) (off : Nat) :
    (saveFrameToEvict g p cp sc f pf off).victim
      = pickVictim g p sc.victim { frame := f, page := cp, prev := pf, offset := off } := by
  by_cases h : calc_cyclic g p cp > sc.oldCycDist
  · simp only [saveFrameToEvict, pickVictim, Scan.victim, Leaf.asVictim, h, if_true]
  · simp only [saveFrameToEvict, pickVictim, Scan.victim, Leaf.asVictim, h, if_false]

/-- The step of the scan at a leaf, on the victim variables. -/
theorem DFS_victim (g : Geometry) (ram : Nat → Int) (used : Int → Bool) (p : Nat) :
    ∀ (rem : Nat) (cur prev : Int) (cp off : Nat) (sc : Scan),
      (DFS g ram used p rem cur prev cp off sc).victim
        = (candidates g ram used rem cur prev cp off).foldl (pickVictim g p) sc.victim := by
  intro rem
  induction rem with
  | zero =>
    intro cur prev cp off sc
    rw [DFS]
    unfold candidates
    rw [visitedLeaves]
    by_cases hu : used cur = true
    · simp [hu, bump_victim]
    · simp only [Bool.not_eq_true] at hu
      simp [hu, saveFrameToEvict_victim, bump_victim]
  | succ rem ih =>
    intro cur prev cp off sc
    rw [DFS]
    have hkey := foldl_flag_fst
      (fun page sc => DFS g ram used p rem (ram (toU64 cur * g.PAGE_SIZE + page)) cur
        ((cp <<< g.OFFSET_WIDTH) + page) page sc)
      (fun page => ram (toU64 cur * g.PAGE_SIZE + page) ≠ 0) Scan.victim
      (fun page => candidates g ram used rem (ram (toU64 cur * g.PAGE_SIZE + page)) cur
        ((cp <<< g.OFFSET_WIDTH) + page) page)
      (pickVictim g p) (fun page sc _ => ih _ _ _ _ sc) (List.range g.PAGE_SIZE)
      ((if toU64 cur > sc.maxFrame then { sc with maxFrame := toU64 cur } else sc), true)
    have hc : candidates g ram used (rem + 1) cur prev cp off
        = (List.range g.PAGE_SIZE).flatMap fun page =>
            if ram (toU64 cur * g.PAGE_SIZE + page) ≠ 0 then
              candidates g ram used rem (ram (toU64 cur * g.PAGE_SIZE + page)) cur
                ((cp <<< g.OFFSET_WIDTH) + page) page
            else [] := by
      unfold candidates
      rw [visitedLeaves, List.filter_flatMap]
      congr 1
      funext page
      split_ifs <;> rfl
    rw [hc, ← bump_victim sc (toU64 cur), ← hkey]
    split_ifs <;> rfl

theorem foldl_pickVictim (g : Geometry) (p : Nat) :
    ∀ (C : List Leaf) (v0 : Victim),
      ((∀ x ∈ C, calc_cyclic g p x.page ≤ v0.oldCycDist) → C.foldl (pickVictim g p) v0 = v0) ∧
      ((∃ x ∈ C, calc_cyclic g p x.page > v0.oldCycDist) →
        ∃ l1 l l2, C = l1 ++ l :: l2 ∧
          (∀ x ∈ l1, calc_cyclic g p x.page < calc_cyclic g p l.page) ∧
          (∀ x ∈ l2, calc_cyclic g p x.page ≤ calc_cyclic g p l.page) ∧
          v0.oldCycDist < calc_cyclic g p l.page ∧
          C.foldl (pickVictim g p) v0 = l.asVictim g p) := by
  intro C
  induction C with
  | nil =>
    intro v0
    exact ⟨fun _ => rfl, fun ⟨x, hx, _⟩ => absurd hx (List.not_mem_nil x)⟩
  | cons c rest ih =>
    intro v0
    rw [List.foldl_cons]
    by_cases hc : calc_cyclic g p c.page > v0.oldCycDist
    · have hpick : pickVictim g p v0 c = c.asVictim g p := by
        unfold pickVictim; rw [if_pos hc]
      have hd : (c.asVictim g p).oldCycDist = calc_cyclic g p c.page := rfl
      constructor
      · intro hall
        exact absurd (hall c (List.mem_cons_self c rest)) (Nat.not_le_of_gt hc)
      · intro _
        rw [hpick]
        by_cases hex : ∃ x ∈ rest, calc_cyclic g p x.page > (c.asVictim g p).oldCycDist
        · obtain ⟨l1, l, l2, hsplit, h1, h2, h3, h4⟩ := (ih (c.asVictim g p)).2 hex
          refine ⟨c :: l1, l, l2, by rw [hsplit]; rfl, ?_, h2, ?_, h4⟩
          · intro x hx
            rcases List.mem_cons.mp hx with rfl | hx
            · rw [hd] at h3; exact h3
            · exact h1 x hx
          · rw [hd] at h3; exact lt_trans hc h3
        · have hall : ∀ x ∈ rest, calc_cyclic g p x.page ≤ (c.asVictim g p).oldCycDist := by
            intro x hx
            by_contra hlt
            exact hex ⟨x, hx, Nat.lt_of_not_le hlt⟩
          refine ⟨[], c, rest, rfl, ?_, ?_, hc, (ih (c.asVictim g p)).1 hall⟩
          · intro x hx; exact absurd hx (List.not_mem_nil x)
          · intro x hx; rw [← hd]; exact hall x hx
    · have hpick : pickVictim g p v0 c = v0 := by
        unfold pickVictim; rw [if_neg hc]
      rw [hpick]
      constructor
      · intro hall
        exact (ih v0).1 (fun x hx => hall x (List.mem_cons_of_mem c hx))
      · intro ⟨x, hx, hgt⟩
        have hx' : x ∈ rest := by
          rcases List.mem_cons.mp hx with rfl | hx
          · exact absurd hgt hc
          · exact hx
        obtain ⟨l1, l, l2, hsplit, h1, h2, h3, h4⟩ := (ih v0).2 ⟨x, hx', hgt⟩
        refine ⟨c :: l1, l, l2, by rw [hsplit]; rfl, ?_, h2, h3, h4⟩
        intro y hy
        rcases List.mem_cons.mp hy with rfl | hy
        · exact lt_of_le_of_lt (Nat.le_of_not_lt hc) h3
        · exact h1 y hy

theorem visitedLeaves_parent (g : Geometry) (ram : Nat → Int) :
    ∀ (rem : Nat) (cur prev : Int) (cp off : Nat),
      ∀ l ∈ visitedLeaves g ram (rem + 1) cur prev cp off,
        ram (toU64 l.prev * g.PAGE_SIZE + l.offset) = l.frame ∧ l.frame ≠ 0 ∧
        l.offset < g.PAGE_SIZE := by
  intro rem
  induction rem with
  | zero =>
    intro cur prev cp off l hl
    rw [visitedLeaves, List.mem_flatMap] at hl
    obtain ⟨page, hpage, hl⟩ := hl
    by_cases hz : ram (toU64 cur * g.PAGE_SIZE + page) ≠ 0
    · rw [if_pos hz, visitedLeaves, List.mem_singleton] at hl
      subst hl
      exact ⟨rfl, hz, List.mem_range.mp hpage⟩
    · rw [if_neg hz] at hl
      exact absurd hl (List.not_mem_nil l)
  | succ rem ih =>
    intro cur prev cp off l hl
    rw [visitedLeaves, List.mem_flatMap] at hl
    obtain ⟨page, _, hl⟩ := hl
    by_cases hz : ram (toU64 cur * g.PAGE_SIZE + page) ≠ 0
    · rw [if_pos hz] at hl
      exact ih _ _ _ _ l hl
    · rw [if_neg hz] at hl
      exact absurd hl (List.not_mem_nil l)

theorem victim_fields (g : Geometry) (p : Nat) (sc : Scan) (l : Leaf)
    (h : sc.victim = l.asVictim g p) :
    sc.frameToEvict = l.frame ∧ sc.pageToEvict = toWord l.page ∧
    sc.addressToEvict = toU64 (l.prev * g.PAGE_SIZE + l.offset) := by
  simp only [Scan.victim, Leaf.asVictim, Victim.mk.injEq] at h
  exact ⟨h.1, h.2.1, h.2.2.1⟩

/-- The victim variables after a scan: for every memory and every target page `p`, a `DFS`
call started at the root with `oldCycDist = 0` ends with the victim variables of the first
leaf, in the order the scan reaches them, among the depth-`D` leaves not marked used whose
page maximises `calc_cyclic(p, ·)`: `frameToEvict` is its frame, `pageToEvict` the `word_t`
conversion of its page (the number formed by the slots on the way down), `addressToEvict` the
address of the parent slot; when no unmarked leaf has a non-zero distance the victim variables
are left as they were. -/
theorem victim_selection (g : Geometry) (ram : Nat → Int) (used : Int → Bool) (p : Nat)
    (sc : Scan) (h0 : sc.oldCycDist = 0) :
    ((∀ x ∈ candidates g ram used g.TABLES_DEPTH 0 0 0 0, calc_cyclic g p x.page = 0) →
      (DFS g ram used p g.TABLES_DEPTH 0 0 0 0 sc).victim = sc.victim) ∧
    ((∃ x ∈ candidates g ram used g.TABLES_DEPTH 0 0 0 0, calc_cyclic g p x.page ≠ 0) →
      ∃ l1 l l2, candidates g ram used g.TABLES_DEPTH 0 0 0 0 = l1 ++ l :: l2 ∧
        (∀ x ∈ l1, calc_cyclic g p x.page < calc_cyclic g p l.page) ∧
        (∀ x ∈ l2, calc_cyclic g p x.page ≤ calc_cyclic g p l.page) ∧
        (DFS g ram used p g.TABLES_DEPTH 0 0 0 0 sc).frameToEvict = l.frame ∧
        (DFS g ram used p g.TABLES_DEPTH 0 0 0 0 sc).pageToEvict = toWord l.page ∧
        (DFS g ram used p g.TABLES_DEPTH 0 0 0 0 sc).addressToEvict
          = toU64 (l.prev * g.PAGE_SIZE + l.offset) ∧
        (0 < g.TABLES_DEPTH → ram (toU64 l.prev * g.PAGE_SIZE + l.offset) = l.frame ∧
          l.frame ≠ 0 ∧ l.offset < g.PAGE_SIZE)) := by
  have hv : sc.victim.oldCycDist = 0 := h0
  have hfold := foldl_pickVictim g p (candidates g ram used g.TABLES_DEPTH 0 0 0 0) sc.victim
  rw [hv] at hfold
  constructor
  · intro hall
    rw [DFS_victim]
    exact hfold.1 (fun x hx => Nat.le_of_eq (hall x hx))
  · intro ⟨x, hx, hne⟩
    obtain ⟨l1, l, l2, hsplit, h1, h2, _, h4⟩ := hfold.2 ⟨x, hx, Nat.pos_of_ne_zero hne⟩
    rw [← DFS_victim] at h4
    obtain ⟨hf, hp, ha⟩ := victim_fields g p _ l h4
    refine ⟨l1, l, l2, hsplit, h1, h2, hf, hp, ha, ?_⟩
    intro hD
    have hmem : l ∈ visitedLeaves g ram g.TABLES_DEPTH 0 0 0 0 := by
      have : l ∈ candidates g ram used g.TABLES_DEPTH 0 0 0 0 := by
        rw [hsplit]; exact List.mem_append_right _ (List.mem_cons_self _ _)
      exact (List.mem_filter.mp this).1
    obtain ⟨d, hd⟩ : ∃ d, g.TABLES_DEPTH = d + 1 := ⟨g.TABLES_DEPTH - 1, by omega⟩
    rw [hd] at hmem
    exact visitedLeaves_parent g ram d 0 0 0 0 l hmem

/-! ## The highest frame seen -/

theorem saveEmptyFrame_maxFrame (g : Geometry) (sc : Scan) (f pf : Int) (off : Nat) :
    (saveEmptyFrame g sc f pf off).maxFrame = sc.maxFrame := rfl

theorem saveFrameToEvict_maxFrame (g : Geometry) (p cp : Nat) (sc : Scan) (f pf : Int) (off : Nat) :
    (saveFrameToEvict g p cp sc f pf off).maxFrame = sc.maxFrame := by
  by_cases h : calc_cyclic g p cp > sc.oldCycDist
  · simp only [saveFrameToEvict, h, if_true]
  · simp only [saveFrameToEvict, h, if_false]

theorem bump_maxFrame (sc : Scan) (j : Nat) :
    (if j > sc.maxFrame then { sc with maxFrame := j } else sc).maxFrame = max sc.maxFrame j := by
  rw [bump_eq]

theorem ite_saveEmpty_maxFrame (g : Geometry) (c : Bool) (s : Scan) (f pf : Int) (off : Nat) :
    (if c = true then saveEmptyFrame g s f pf off else s).maxFrame = s.maxFrame := by
  cases c <;> rfl

theorem tableEntries_succ (g : Geometry) (ram : Nat → Int) (rem : Nat) (f : Int) :
    tableEntries g ram (rem + 1) f
      = (List.range g.PAGE_SIZE).flatMap fun page =>
          if ram (toU64 f * g.PAGE_SIZE + page) ≠ 0 then
            ram (toU64 f * g.PAGE_SIZE + page) :: tableEntries g ram rem (ram (toU64 f * g.PAGE_SIZE + page))
          else [] := by
  rw [tableEntries]
  congr 1
  funext page
  by_cases h : ram (toU64 f * g.PAGE_SIZE + page) = 0
  · simp only [h, if_true, ne_eq, not_true_eq_false, if_false]
  · simp only [h, if_false, ne_eq, not_false_eq_true, if_true]

theorem DFS_maxFrame (g : Geometry) (ram : Nat → Int) (used : Int → Bool) (p : Nat) :
    ∀ (rem : Nat) (cur prev : Int) (cp off : Nat) (sc : Scan),
      (DFS g ram used p rem cur prev cp off sc).maxFrame
        = maxEntry sc.maxFrame (cur :: tableEntries g ram rem cur) := by
  intro rem
  induction rem with
  | zero =>
    intro cur prev cp off sc
    rw [DFS, bump_eq]
    simp only [tableEntries, maxEntry, List.foldl_cons, List.foldl_nil]
    by_cases hu : (!used cur) = true
    · rw [if_pos hu, saveFrameToEvict_maxFrame]
    · rw [if_neg hu]
  | succ rem ih =>
    intro cur prev cp off sc
    rw [DFS]
    have hkey := foldl_flag_fst
      (fun page sc => DFS g ram used p rem (ram (toU64 cur * g.PAGE_SIZE + page)) cur
        ((cp <<< g.OFFSET_WIDTH) + page) page sc)
      (fun page => ram (toU64 cur * g.PAGE_SIZE + page) ≠ 0) Scan.maxFrame
      (fun page => ram (toU64 cur * g.PAGE_SIZE + page)
        :: tableEntries g ram rem (ram (toU64 cur * g.PAGE_SIZE + page)))
      (fun m e => max m (toU64 e)) (fun page sc _ => ih _ _ _ _ sc) (List.range g.PAGE_SIZE)
      ((if toU64 cur > sc.maxFrame then { sc with maxFrame := toU64 cur } else sc), true)
    rw [tableEntries_succ]
    simp only [maxEntry, List.foldl_cons]
    rw [← bump_maxFrame sc (toU64 cur), ← hkey]
    exact ite_saveEmpty_maxFrame g _ _ cur prev off

theorem maxEntry_ge (l : List Int) : ∀ (m : Nat), m ≤ maxEntry m l := by
  induction l with
  | nil => intro m; exact le_rfl
  | cons e rest ih =>
    intro m
    exact le_trans (le_max_left m (toU64 e)) (ih (max m (toU64 e)))

theorem maxEntry_mem_le (l : List Int) : ∀ (m : Nat), ∀ e ∈ l, toU64 e ≤ maxEntry m l := by
  induction l with
  | nil => intro m e he; exact absurd he (List.not_mem_nil e)
  | cons c rest ih =>
    intro m e he
    rcases List.mem_cons.mp he with rfl | he
    · exact le_trans (le_max_right m (toU64 e)) (maxEntry_ge rest _)
    · exact ih _ e he

theorem maxEntry_attained (l : List Int) :
    ∀ (m : Nat), maxEntry m l = m ∨ ∃ e ∈ l, toU64 e = maxEntry m l := by
  induction l with
  | nil => intro m; exact Or.inl rfl
  | cons c rest ih =>
    intro m
    rcases ih (max m (toU64 c)) with h | ⟨e, he, h⟩
    · rcases max_cases m (toU64 c) with ⟨hm, _⟩ | ⟨hm, _⟩
      · left
        show maxEntry (max m (toU64 c)) rest = m
        rw [h, hm]
      · right
        refine ⟨c, List.mem_cons_self c rest, ?_⟩
        show toU64 c = maxEntry (max m (toU64 c)) rest
        rw [h, hm]
    · exact Or.inr ⟨e, List.mem_cons_of_mem c he, h⟩

theorem toU64_zero : toU64 0 = 0 := by
  unfold toU64
  simp

/-- C16 (highest frame seen): for every memory, a `DFS` call started at the root with
`maxFrame = 0` ends with `maxFrame` equal to the largest frame index (as `uint64_t`) held by a
non-zero slot reachable from the root within depth `D`, and 0 when there is none; so frame
`maxFrame + 1` is held by no reachable slot. -/
theorem highest_frame_seen (g : Geometry) (ram : Nat → Int) (used : Int → Bool) (p : Nat)
    (sc : Scan) (h0 : sc.maxFrame = 0) :
    (DFS g ram used p g.TABLES_DEPTH 0 0 0 0 sc).maxFrame
      = maxEntry 0 (tableEntries g ram g.TABLES_DEPTH 0) ∧
    (∀ e ∈ tableEntries g ram g.TABLES_DEPTH 0,
      toU64 e ≤ (DFS g ram used p g.TABLES_DEPTH 0 0 0 0 sc).maxFrame) ∧
    ((DFS g ram used p g.TABLES_DEPTH 0 0 0 0 sc).maxFrame = 0 ∨
      ∃ e ∈ tableEntries g ram g.TABLES_DEPTH 0,
        toU64 e = (DFS g ram used p g.TABLES_DEPTH 0 0 0 0 sc).maxFrame) ∧
    (tableEntries g ram g.TABLES_DEPTH 0 = [] →
      (DFS g ram used p g.TABLES_DEPTH 0 0 0 0 sc).maxFrame = 0) ∧
    (∀ e ∈ tableEntries g ram g.TABLES_DEPTH 0,
      toU64 e ≠ (DFS g ram used p g.TABLES_DEPTH 0 0 0 0 sc).maxFrame + 1) := by
  have hm : (DFS g ram used p g.TABLES_DEPTH 0 0 0 0 sc).maxFrame
      = maxEntry 0 (tableEntries g ram g.TABLES_DEPTH 0) := by
    rw [DFS_maxFrame, h0]
    simp only [maxEntry, List.foldl_cons, toU64_zero, max_self]
  rw [hm]
  refine ⟨rfl, maxEntry_mem_le _ 0, maxEntry_attained _ 0, ?_, ?_⟩
  · intro he; rw [he]; rfl
  · intro e he heq
    have := maxEntry_mem_le _ 0 e he
    omega

/-! ## Empty-table detection -/

theorem bump_empty (sc : Scan) (j : Nat) :
    (if j > sc.maxFrame then { sc with maxFrame := j } else sc).empty = sc.empty := by
  split_ifs <;> rfl

theorem saveFrameToEvict_empty (g : Geometry) (p cp : Nat) (sc : Scan) (f pf : Int) (off : Nat) :
    (saveFrameToEvict g p cp sc f pf off).empty = sc.empty := by
  by_cases h : calc_cyclic g p cp > sc.oldCycDist
  · simp only [saveFrameToEvict, h, if_true, Scan.empty]
  · simp only [saveFrameToEvict, h, if_false]

theorem saveEmptyFrame_empty (g : Geometry) (sc : Scan) (f pf : Int) (off : Nat) :
    (saveEmptyFrame g sc f pf off).empty = (f, toWord (pf * g.PAGE_SIZE + off)) := by
  simp only [saveEmptyFrame, Scan.empty]

theorem isEmptyTable_eq (g : Geometry) (ram : Nat → Int) (f : Int) :
    isEmptyTable g ram f
      = (List.range g.PAGE_SIZE).all fun page =>
          decide (¬ ram (toU64 f * g.PAGE_SIZE + page) ≠ 0) := by
  unfold isEmptyTable
  congr 1
  funext page
  simp only [ne_eq, not_not]

theorem DFS_empty (g : Geometry) (ram : Nat → Int) (used : Int → Bool) (p : Nat) :
    ∀ (rem : Nat) (cur prev : Int) (cp off : Nat) (sc : Scan),
      (DFS g ram used p rem cur prev cp off sc).empty
        = (emptyTables g ram used rem cur prev off).foldl (fun _ e => e) sc.empty := by
  intro rem
  induction rem with
  | zero =>
    intro cur prev cp off sc
    rw [DFS, emptyTables, List.foldl_nil]
    by_cases hu : (!used cur) = true
    · rw [if_pos hu, saveFrameToEvict_empty, bump_empty]
    · rw [if_neg hu, bump_empty]
  | succ rem ih =>
    intro cur prev cp off sc
    rw [DFS]
    have hkey := foldl_flag_fst
      (fun page sc => DFS g ram used p rem (ram (toU64 cur * g.PAGE_SIZE + page)) cur
        ((cp <<< g.OFFSET_WIDTH) + page) page sc)
      (fun page => ram (toU64 cur * g.PAGE_SIZE + page) ≠ 0) Scan.empty
      (fun page => emptyTables g ram used rem (ram (toU64 cur * g.PAGE_SIZE + page)) cur page)
      (fun _ e => e) (fun page sc _ => ih _ _ _ _ sc) (List.range g.PAGE_SIZE)
      ((if toU64 cur > sc.maxFrame then { sc with maxFrame := toU64 cur } else sc), true)
    have hflag := foldl_flag_snd
      (fun page sc => DFS g ram used p rem (ram (toU64 cur * g.PAGE_SIZE + page)) cur
        ((cp <<< g.OFFSET_WIDTH) + page) page sc)
      (fun page => ram (toU64 cur * g.PAGE_SIZE + page) ≠ 0) (List.range g.PAGE_SIZE)
      ((if toU64 cur > sc.maxFrame then { sc with maxFrame := toU64 cur } else sc), true)
    rw [Bool.true_and, ← isEmptyTable_eq] at hflag
    rw [emptyTables, List.foldl_append, ← bump_empty sc (toU64 cur), ← hkey]
    simp only [hflag]
    by_cases hc : (isEmptyTable g ram cur && !used cur) = true
    · rw [if_pos hc, if_pos hc, saveEmptyFrame_empty]
      rfl
    · rw [if_neg hc, if_neg hc]
      rfl

theorem foldl_last_eq {α : Type} :
    ∀ (l : List α) (a : α), l.foldl (fun _ e => e) a = l.getLast?.getD a := by
  intro l
  induction l with
  | nil => intro a; rfl
  | cons c rest ih =>
    intro a
    rw [List.foldl_cons, ih]
    cases rest with
    | nil => rfl
    | cons d rest2 => rw [List.getLast?_cons_cons]; rfl

theorem emptyTables_good (g : Geometry) (ram : Nat → Int) (used : Int → Bool) :
    ∀ (rem : Nat) (cur prev : Int) (off : Nat), cur ≠ 0 → off < g.PAGE_SIZE →
      ram (toU64 prev * g.PAGE_SIZE + off) = cur →
      ∀ e ∈ emptyTables g ram used rem cur prev off, GoodEmpty g ram used e := by
  intro rem
  induction rem with
  | zero => intro cur prev off _ _ _ e he; rw [emptyTables] at he; exact absurd he (List.not_mem_nil e)
  | succ rem ih =>
    intro cur prev off hcur hoff hslot e he
    rw [emptyTables, List.mem_append] at he
    rcases he with he | he
    · rw [List.mem_flatMap] at he
      obtain ⟨page, hpage, he⟩ := he
      by_cases hz : ram (toU64 cur * g.PAGE_SIZE + page) ≠ 0
      · rw [if_pos hz] at he
        exact ih _ cur page hz (List.mem_range.mp hpage) rfl e he
      · rw [if_neg hz] at he
        exact absurd he (List.not_mem_nil e)
    · by_cases hc : (isEmptyTable g ram cur && !used cur) = true
      · rw [if_pos hc, List.mem_singleton] at he
        subst he
        rw [Bool.and_eq_true] at hc
        refine ⟨hcur, ?_, hc.1, prev, off, hoff, hslot, rfl⟩
        simpa using hc.2
      · rw [if_neg hc] at he
        exact absurd he (List.not_mem_nil e)

theorem emptyBelowRoot_good (g : Geometry) (ram : Nat → Int) (used : Int → Bool) :
    ∀ e ∈ emptyBelowRoot g ram used, GoodEmpty g ram used e := by
  intro e he
  unfold emptyBelowRoot at he
  split at he
  · exact absurd he (List.not_mem_nil e)
  · rw [List.mem_flatMap] at he
    obtain ⟨page, hpage, he⟩ := he
    by_cases hz : ram (toU64 0 * g.PAGE_SIZE + page) ≠ 0
    · rw [if_pos hz] at he
      exact emptyTables_good g ram used _ _ 0 page hz (List.mem_range.mp hpage) rfl e he
    · rw [if_neg hz] at he
      exact absurd he (List.not_mem_nil e)

theorem emptyTables_root (g : Geometry) (ram : Nat → Int) (used : Int → Bool) :
    emptyTables g ram used g.TABLES_DEPTH 0 0 0 = emptyBelowRoot g ram used ∨
    (emptyBelowRoot g ram used = [] ∧
      emptyTables g ram used g.TABLES_DEPTH 0 0 0 = [(0, toWord (0 * g.PAGE_SIZE + (0 : Nat)))]) := by
  unfold emptyBelowRoot
  cases hD : g.TABLES_DEPTH with
  | zero => left; rfl
  | succ d =>
    simp only
    rw [emptyTables]
    by_cases hc : (isEmptyTable g ram 0 && !used 0) = true
    · right
      rw [if_pos hc]
      rw [Bool.and_eq_true] at hc
      have hall := hc.1
      unfold isEmptyTable at hall
      rw [List.all_eq_true] at hall
      have hnil : ((List.range g.PAGE_SIZE).flatMap fun page =>
          if ram (toU64 0 * g.PAGE_SIZE + page) ≠ 0 then
            emptyTables g ram used d (ram (toU64 0 * g.PAGE_SIZE + page)) 0 page
          else []) = [] := by
        rw [List.flatMap_eq_nil_iff]
        intro page hpage
        have := hall page hpage
        simp only [decide_eq_true_eq] at this
        rw [if_neg (not_not.mpr this)]
      rw [hnil]
      exact ⟨rfl, rfl⟩
    · left
      rw [if_neg hc, List.append_nil]

/-- The empty-table variables after a scan: for every memory, a `DFS` call started at the root
with `emptyFrame = 0` ends with a non-zero `emptyFrame` if and only if some table frame
reachable below the root (depth between 1 and `D - 1`) has all `PAGE_SIZE` entries zero and is
not marked used; the reported frame is the last such frame in post-order, it is not frame 0,
and `emptyAdd` is the `word_t` conversion of the address of the parent slot that points to
it. -/
theorem empty_table_detection (g : Geometry) (ram : Nat → Int) (used : Int → Bool) (p : Nat)
    (sc : Scan) (h0 : sc.emptyFrame = 0) :
    ((DFS g ram used p g.TABLES_DEPTH 0 0 0 0 sc).emptyFrame ≠ 0 ↔ emptyBelowRoot g ram used ≠ []) ∧
    (∀ e, (emptyBelowRoot g ram used).getLast? = some e →
      (DFS g ram used p g.TABLES_DEPTH 0 0 0 0 sc).emptyFrame = e.1 ∧
      (DFS g ram used p g.TABLES_DEPTH 0 0 0 0 sc).emptyAdd = e.2) ∧
    (∀ e ∈ emptyBelowRoot g ram used, GoodEmpty g ram used e) := by
  have hE : (DFS g ram used p g.TABLES_DEPTH 0 0 0 0 sc).empty
      = (emptyTables g ram used g.TABLES_DEPTH 0 0 0).getLast?.getD sc.empty := by
    rw [DFS_empty, foldl_last_eq]
  have hlast : ∀ e, (emptyBelowRoot g ram used).getLast? = some e →
      (DFS g ram used p g.TABLES_DEPTH 0 0 0 0 sc).empty = e := by
    intro e he
    rcases emptyTables_root g ram used with h | ⟨h, _⟩
    · rw [hE, h, he]; rfl
    · rw [h] at he; exact absurd he (by simp)
  refine ⟨?_, ?_, emptyBelowRoot_good g ram used⟩
  · constructor
    · intro hne hnil
      apply hne
      have : (DFS g ram used p g.TABLES_DEPTH 0 0 0 0 sc).empty.1 = 0 := by
        rcases emptyTables_root g ram used with h | ⟨_, h⟩
        · rw [hE, h, hnil]; exact h0
        · rw [hE, h]; rfl
      exact this
    · intro hne
      obtain ⟨e, he⟩ : ∃ e, (emptyBelowRoot g ram used).getLast? = some e := by
        cases hl : (emptyBelowRoot g ram used).getLast? with
        | none => exact absurd (List.getLast?_eq_none_iff.mp hl) hne
        | some e => exact ⟨e, rfl⟩
      have h1 := hlast e he
      have hmem : e ∈ emptyBelowRoot g ram used := List.mem_of_getLast?_eq_some he
      have hg := (emptyBelowRoot_good g ram used e hmem).1
      have : (DFS g ram used p g.TABLES_DEPTH 0 0 0 0 sc).emptyFrame = e.1 := congrArg Prod.fst h1
      rw [this]; exact hg
  · intro e he
    have h1 := hlast e he
    exact ⟨congrArg Prod.fst h1, congrArg Prod.snd h1⟩

/-! ## Termination and size of the scan -/

theorem length_flatMap_le {α β : Type} (f : α → List β) (b : Nat) :
    ∀ (l : List α), (∀ x ∈ l, (f x).length ≤ b) → (l.flatMap f).length ≤ l.length * b := by
  intro l
  induction l with
  | nil => intro _; simp
  | cons c rest ih =>
    intro h
    rw [List.flatMap_cons, List.length_append, List.length_cons, Nat.succ_mul]
    have h1 := h c (List.mem_cons_self c rest)
    have h2 := ih (fun x hx => h x (List.mem_cons_of_mem c hx))
    omega

theorem visitedLeaves_length (g : Geometry) (ram : Nat → Int) :
    ∀ (rem : Nat) (cur prev : Int) (cp off : Nat),
      (visitedLeaves g ram rem cur prev cp off).length ≤ g.PAGE_SIZE ^ rem := by
  intro rem
  induction rem with
  | zero => intro cur prev cp off; simp [visitedLeaves]
  | succ rem ih =>
    intro cur prev cp off
    rw [visitedLeaves]
    have h := length_flatMap_le
      (fun page => if ram (toU64 cur * g.PAGE_SIZE + page) ≠ 0 then
          visitedLeaves g ram rem (ram (toU64 cur * g.PAGE_SIZE + page)) cur
            ((cp <<< g.OFFSET_WIDTH) + page) page
        else []) (g.PAGE_SIZE ^ rem) (List.range g.PAGE_SIZE)
      (by
        intro page _
        show (if ram (toU64 cur * g.PAGE_SIZE + page) ≠ 0 then
          visitedLeaves g ram rem (ram (toU64 cur * g.PAGE_SIZE + page)) cur
            ((cp <<< g.OFFSET_WIDTH) + page) page
          else []).length ≤ g.PAGE_SIZE ^ rem
        by_cases hz : ram (toU64 cur * g.PAGE_SIZE + page) ≠ 0
        · rw [if_pos hz]; exact ih _ _ _ _
        · rw [if_neg hz]; exact Nat.zero_le _)
    rw [List.length_range] at h
    exact le_of_le_of_eq h (by rw [pow_succ, Nat.mul_comm])

/-- C20 (scan termination): `DFS` is a total function of the memory, for every content of the
memory (tables that link to themselves or form cycles included): it recurses on the number
of levels left, `TABLES_DEPTH - curDepth`, and stops when none is left.  Started at depth 0 it
reaches at most `PAGE_SIZE ^ TABLES_DEPTH` leaves, its victim, empty-table and highest-frame
results are the folds over the leaves, the empty tables and the entries it reaches, and it
returns only the scan record: the memory is an argument it reads. -/
theorem scan_terminates (g : Geometry) (ram : Nat → Int) (used : Int → Bool) (p : Nat)
    (cur prev : Int) (cp off : Nat) (sc : Scan) :
    (visitedLeaves g ram g.TABLES_DEPTH cur prev cp off).length ≤ g.PAGE_SIZE ^ g.TABLES_DEPTH ∧
    (candidates g ram used g.TABLES_DEPTH cur prev cp off).length ≤ g.PAGE_SIZE ^ g.TABLES_DEPTH ∧
    (DFS g ram used p g.TABLES_DEPTH cur prev cp off sc).victim
      = (candidates g ram used g.TABLES_DEPTH cur prev cp off).foldl (pickVictim g p) sc.victim ∧
    (DFS g ram used p g.TABLES_DEPTH cur prev cp off sc).empty
      = (emptyTables g ram used g.TABLES_DEPTH cur prev off).foldl (fun _ e => e) sc.empty ∧
    (DFS g ram used p g.TABLES_DEPTH cur prev cp off sc).maxFrame
      = maxEntry sc.maxFrame (cur :: tableEntries g ram g.TABLES_DEPTH cur) := by
  refine ⟨visitedLeaves_length g ram _ _ _ _ _, ?_, DFS_victim g ram used p _ _ _ _ _ _,
    DFS_empty g ram used p _ _ _ _ _ _, DFS_maxFrame g ram used p _ _ _ _ _ _⟩
  exact le_trans (List.length_filter_le _ _) (visitedLeaves_length g ram _ _ _ _ _)

/-- A memory in which every word is 1, so that frame 1 links to itself in both slots
(`W = 1, D = 2`): the scan started at frame 1 ends, having reached four leaves, all of them
frame 1. -/
theorem scan_of_self_loop :
    (visitedLeaves geom124 (fun _ => 1) 2 1 0 0 0).map Leaf.frame = [1, 1, 1, 1] ∧
    (DFS geom124 (fun _ => 1) (fun f => decide (f = 0)) 0 2 1 0 0 0 (initScan 0)).maxFrame = 1 := by
  decide!

/-! ## The scan theorems at `W = 1, D = 2, F = 4`, in the memory reached by `write(0,7)` -/

/-- The victim variables at `W = 1, D = 2, F = 4`, target page 2, in the memory reached by
`write(0,7)`. -/
theorem victim_selection_witness :
    (initScan 0).oldCycDist = 0 ∧
    (((∀ x ∈ candidates geom124 demoWalk.pm.ram demoWalk.used geom124.TABLES_DEPTH 0 0 0 0,
        calc_cyclic geom124 2 x.page = 0) →
      (DFS geom124 demoWalk.pm.ram demoWalk.used 2 geom124.TABLES_DEPTH 0 0 0 0 (initScan 0)).victim
        = (initScan 0).victim) ∧
    ((∃ x ∈ candidates geom124 demoWalk.pm.ram demoWalk.used geom124.TABLES_DEPTH 0 0 0 0,
        calc_cyclic geom124 2 x.page ≠ 0) →
      ∃ l1 l l2,
        candidates geom124 demoWalk.pm.ram demoWalk.used geom124.TABLES_DEPTH 0 0 0 0
          = l1 ++ l :: l2 ∧
        (∀ x ∈ l1, calc_cyclic geom124 2 x.page < calc_cyclic geom124 2 l.page) ∧
        (∀ x ∈ l2, calc_cyclic geom124 2 x.page ≤ calc_cyclic geom124 2 l.page) ∧
        (DFS geom124 demoWalk.pm.ram demoWalk.used 2 geom124.TABLES_DEPTH 0 0 0 0
          (initScan 0)).frameToEvict = l.frame ∧
        (DFS geom124 demoWalk.pm.ram demoWalk.used 2 geom124.TABLES_DEPTH 0 0 0 0
          (initScan 0)).pageToEvict = toWord l.page ∧
        (DFS geom124 demoWalk.pm.ram demoWalk.used 2 geom124.TABLES_DEPTH 0 0 0 0
          (initScan 0)).addressToEvict = toU64 (l.prev * geom124.PAGE_SIZE + l.offset) ∧
        (0 < geom124.TABLES_DEPTH →
          demoWalk.pm.ram (toU64 l.prev * geom124.PAGE_SIZE + l.offset) = l.frame ∧
          l.frame ≠ 0 ∧ l.offset < geom124.PAGE_SIZE))) :=
  ⟨rfl, victim_selection geom124 demoWalk.pm.ram demoWalk.used 2 (initScan 0) rfl⟩

/-- The empty-table variables at `W = 1, D = 2, F = 4`, in the memory reached by `write(0,7)`. -/
theorem empty_table_detection_witness :
    (initScan 0).emptyFrame = 0 ∧
    (((DFS geom124 demoWalk.pm.ram demoWalk.used 2 geom124.TABLES_DEPTH 0 0 0 0
        (initScan 0)).emptyFrame ≠ 0 ↔ emptyBelowRoot geom124 demoWalk.pm.ram demoWalk.used ≠ []) ∧
    (∀ e, (emptyBelowRoot geom124 demoWalk.pm.ram demoWalk.used).getLast? = some e →
      (DFS geom124 demoWalk.pm.ram demoWalk.used 2 geom124.TABLES_DEPTH 0 0 0 0
        (initScan 0)).emptyFrame = e.1 ∧
      (DFS geom124 demoWalk.pm.ram demoWalk.used 2 geom124.TABLES_DEPTH 0 0 0 0
        (initScan 0)).emptyAdd = e.2) ∧
    (∀ e ∈ emptyBelowRoot geom124 demoWalk.pm.ram demoWalk.used,
      GoodEmpty geom124 demoWalk.pm.ram demoWalk.used e)) :=
  ⟨rfl, empty_table_detection geom124 demoWalk.pm.ram demoWalk.used 2 (initScan 0) rfl⟩

/-- C16 at `W = 1, D = 2, F = 4`, in the memory reached by `write(0,7)`. -/
theorem highest_frame_seen_witness :
    (initScan 0).maxFrame = 0 ∧
    ((DFS geom124 demoWalk.pm.ram demoWalk.used 2 geom124.TABLES_DEPTH 0 0 0 0 (initScan 0)).maxFrame
      = maxEntry 0 (tableEntries geom124 demoWalk.pm.ram geom124.TABLES_DEPTH 0) ∧
    (∀ e ∈ tableEntries geom124 demoWalk.pm.ram geom124.TABLES_DEPTH 0,
      toU64 e ≤ (DFS geom124 demoWalk.pm.ram demoWalk.used 2 geom124.TABLES_DEPTH 0 0 0 0
        (initScan 0)).maxFrame) ∧
    ((DFS geom124 demoWalk.pm.ram demoWalk.used 2 geom124.TABLES_DEPTH 0 0 0 0
        (initScan 0)).maxFrame = 0 ∨
      ∃ e ∈ tableEntries geom124 demoWalk.pm.ram geom124.TABLES_DEPTH 0,
        toU64 e = (DFS geom124 demoWalk.pm.ram demoWalk.used 2 geom124.TABLES_DEPTH 0 0 0 0
          (initScan 0)).maxFrame) ∧
    (tableEntries geom124 demoWalk.pm.ram geom124.TABLES_DEPTH 0 = [] →
      (DFS geom124 demoWalk.pm.ram demoWalk.used 2 geom124.TABLES_DEPTH 0 0 0 0
        (initScan 0)).maxFrame = 0) ∧
    (∀ e ∈ tableEntries geom124 demoWalk.pm.ram geom124.TABLES_DEPTH 0,
      toU64 e ≠ (DFS geom124 demoWalk.pm.ram demoWalk.used 2 geom124.TABLES_DEPTH 0 0 0 0
        (initScan 0)).maxFrame + 1)) :=
  ⟨rfl, highest_frame_seen geom124 demoWalk.pm.ram demoWalk.used 2 (initScan 0) rfl⟩

/-- The values behind the three theorems: in the memory reached by `write(0,7)` the scan for
page 2 reaches the leaf frame 2 (page 0, parent slot at address 2), the entries 1 and 2 and no
empty table; in the memory reached by `write(0,7); write(4,9)` the scan for page 0 reports the
empty table frame 1, whose parent slot is at address 0. -/
theorem scan_values_geom124 :
    candidates geom124 demoWalk.pm.ram demoWalk.used 2 0 0 0 0
      = [{ frame := 2, page := 0, prev := 1, offset := 0 }] ∧
    tableEntries geom124 demoWalk.pm.ram 2 0 = [1, 2] ∧
    emptyBelowRoot geom124 demoWalk.pm.ram demoWalk.used = [] ∧
    scanAt geom124 2 demoWalk
      = { frameToEvict := 2, pageToEvict := 0, addressToEvict := 2, emptyFrame := 0, emptyAdd := 0,
          oldCycDist := 2, maxFrame := 2 } ∧
    emptyBelowRoot geom124 (run geom124 (freshPM geom124) [.write 0 7, .write 4 9]).ram
      (fun f => decide (f = 0)) = [(1, 0)] ∧
    scanAt geom124 0 (initWalk (run geom124 (freshPM geom124) [.write 0 7, .write 4 9]))
      = { frameToEvict := 2, pageToEvict := 2, addressToEvict := 6, emptyFrame := 1, emptyAdd := 0,
          oldCycDist := 2, maxFrame := 3 } := by
  decide!

/-! ## The walker's own path and the addresses it uses -/

/-- C11 at a failing input, `W = 1, D = 2, F = 4`: in the state reached by
`write(0,7); write(4,9)`, the translation of address 1 finds one missing link, in the slot of
frame 1 (the table the walker stands on, linked from the root before the translation
started), and the frame chosen for it is frame 1 itself. -/
theorem protectedPath_geom124_parent_chosen :
    missingLinks geom124 (run geom124 (freshPM geom124) [.write 0 7, .write 4 9]) 1 = [(1, 1)] ∧
    (run geom124 (freshPM geom124) [.write 0 7, .write 4 9]).ram 0 = 1 := by
  decide!

/-- C19 at a failing input, `W = 1, D = 3, F = 5` (ten physical words): after
`read(0); read(8); read(0); write(0,7)` root slot 0 holds the user word 7, and the next
translation of address 0 passes the physical addresses 0, 14 and 14 to `PMread` and chooses
frame 7 (which it clears) and then frame 0. -/
theorem addressSafety_geom135_out_of_range :
    geom135.NUM_FRAMES * geom135.PAGE_SIZE = 10 ∧
    (run geom135 (freshPM geom135) [.read 0, .read 8, .read 0, .write 0 7]).ram 0 = 7 ∧
    walkReads geom135 (run geom135 (freshPM geom135) [.read 0, .read 8, .read 0, .write 0 7]) 0
      = [0, 14, 14] ∧
    chosenFrames geom135 (run geom135 (freshPM geom135) [.read 0, .read 8, .read 0, .write 0 7]) 0
      = [7, 0] := by
  decide!

/-! ## Legal calls and the device, page numbers and slot addresses beyond the machine word -/

/-- C9 at a failing input, `W = 1, D = 3, F = 5` (so `F = D + 2`, ten physical words): in the
state reached by the legal calls `read(0); read(8); read(0); write(1,9)` root slot 1 holds the
user word 9, and the legal call `VMread(8)` passes the physical addresses 1, 18 and 18 to
`PMread` and chooses frame 9 (marking `used[9]`); 18 is outside the device, so on the device
the call does not return. -/
theorem legalCall_geom135_leaves_device :
    8 < geom135.VIRTUAL_MEMORY_SIZE ∧ geom135.TABLES_DEPTH + 2 ≤ geom135.NUM_FRAMES ∧
    geom135.NUM_FRAMES * geom135.PAGE_SIZE = 10 ∧
    (run geom135 (freshPM geom135) [.read 0, .read 8, .read 0, .write 1 9]).ram 1 = 9 ∧
    walkReads geom135 (run geom135 (freshPM geom135) [.read 0, .read 8, .read 0, .write 1 9]) 8
      = [1, 18, 18] ∧
    chosenFrames geom135 (run geom135 (freshPM geom135) [.read 0, .read 8, .read 0, .write 1 9]) 8
      = [9, 4] ∧
    (VMreadOnDevice geom135
      (run geom135 (freshPM geom135) [.read 0, .read 8, .read 0, .write 1 9]) 8 0).isSome = false := by
  decide!

/-- C14 at a failing input, `W = 1, D = 32, F = 33` (`2^32` pages): after `write(2^32, 5)` the
only leaf is frame 32, holding page `2^31 = 2147483648`; the scan for target page 0 takes it
as victim with `pageToEvict = -2147483648`, not the page it holds.  The page is evicted under
the wrong number: `write(2^32, 5); read(0); read(2^32)` yields 0, while without the `read(0)`
it yields 5. -/
theorem victimPage_geom132_truncated :
    geom132.NUM_PAGES = 4294967296 ∧
    candidates geom132 (run geom132 (freshPM geom132) [.write 4294967296 5]).ram
        (fun f => decide (f = 0)) geom132.TABLES_DEPTH 0 0 0 0
      = [{ frame := 32, page := 2147483648, prev := 31, offset := 0 }] ∧
    (DFS geom132 (run geom132 (freshPM geom132) [.write 4294967296 5]).ram
        (fun f => decide (f = 0)) 0 geom132.TABLES_DEPTH 0 0 0 0 (initScan 0)).frameToEvict = 32 ∧
    (DFS geom132 (run geom132 (freshPM geom132) [.write 4294967296 5]).ram
        (fun f => decide (f = 0)) 0 geom132.TABLES_DEPTH 0 0 0 0 (initScan 0)).pageToEvict
      = -2147483648 ∧
    toU64 (-2147483648) = 18446744071562067968 ∧
    readValue geom132 (run geom132 (freshPM geom132) [.write 4294967296 5]) 4294967296 = 5 ∧
    readValue geom132 (run geom132 (freshPM geom132) [.write 4294967296 5, .read 0]) 4294967296
      = 0 := by
  decide!

/-- C15 at a failing input, `W = 1, D = 3`, `2^31` frames, memory `wideTree`: the scan from the
root reports the empty table frame 5, whose parent slot is at physical address
`2^31 = 2147483648` (it holds 5), with `emptyAdd = -2147483648`.  The translation of address 8
then zeroes address `18446744071562067968` instead: the parent slot still holds 5, and frame 5
is linked a second time, from root slot 1. -/
theorem emptyAdd_geomWide_truncated :
    wideTree.ram 2147483648 = 5 ∧
    emptyBelowRoot geomWide wideTree.ram (fun f => decide (f = 0)) = [(5, -2147483648)] ∧
    (DFS geomWide wideTree.ram (fun f => decide (f = 0)) 4 geomWide.TABLES_DEPTH 0 0 0 0
      (initScan 0)).emptyFrame = 5 ∧
    (DFS geomWide wideTree.ram (fun f => decide (f = 0)) 4 geomWide.TABLES_DEPTH 0 0 0 0
      (initScan 0)).emptyAdd = -2147483648 ∧
    toU64 (-2147483648) = 18446744071562067968 ∧
    chosenFrames geomWide wideTree 8 = [5, 1073741825, 1073741826] ∧
    (getPhysicalAddress geomWide wideTree 8).2.ram 2147483648 = 5 ∧
    (getPhysicalAddress geomWide wideTree 8).2.ram 1 = 5 := by
  decide!

end VirtualMemory
